import Mathlib

/-!
Verification development for the `crawl-http` module of http-music.

The source file `src/crawl-http.js` exposes two functions:

* `getHTMLLinks(text)` - extracts `(visibleText, hrefAttr)` pairs from the
  anchors of an HTML document (via the tolerant cheerio parser);
* `crawl(absURL, opts, internals)` - recursively crawls a directory listing,
  deduplicating resolved URLs through the shared `internals.allURLs` array,
  retrying failed fetches up to `maxAttempts` times, and assembling a tree of
  `{name, items}` directory nodes and `{name, downloaderArg}` file nodes.

This file gives a shallow embedding of that code.  JavaScript strings are
Lean `String`s; the `url` and `path` Node modules are modelled by executable
functions below (a faithful subset of the WHATWG URL algorithm for http/https
URLs, which is what Node's `url.URL` implements, and of the POSIX `path`
functions).  The asynchronous promise chain is sequentialised: the crawl is a
state-passing function whose state carries the shared `allURLs` array plus two
ghost observation lists (the fetch log and the list of resolved URLs of every
entry pushed onto an `items` array).  Fetching is modelled by an association
list from URLs to per-call responses, so that a flaky fetch capability (fails
a few times, then succeeds) is expressible; recursion is bounded by explicit
fuel, and a theorem shows the fuel can always be chosen large enough.
-/

set_option maxRecDepth 1000000

namespace CrawlHttp

/-! ## Character and string utilities (structural, kernel-reducible) -/

/-- Split a character list at every slash, mirroring a JavaScript
`split('/')`: `"a//b/" ↦ ["a", "", "b", ""]`. -/
def splitSlash : List Char → List (List Char)
  | [] => [[]]
  | '/' :: rest => [] :: splitSlash rest
  | c :: rest =>
    match splitSlash rest with
    | [] => [[c]]
    | seg :: segs => (c :: seg) :: segs

/-- Whether the first list is an initial run of the second. -/
def chStarts : List Char → List Char → Bool
  | [], _ => true
  | _ :: _, [] => false
  | p :: ps, c :: cs => p == c && chStarts ps cs

/-- JavaScript `s.startsWith(pat)`. -/
def strStarts (s pat : String) : Bool := chStarts pat.data s.data

/-- JavaScript `s.endsWith(pat)`. -/
def strEnds (s pat : String) : Bool := chStarts pat.data.reverse s.data.reverse

/-- JavaScript string equality (`===`). -/
def strEq (a b : String) : Bool := a.data == b.data

/-- JavaScript `s.slice(0, -1)`: drop the final character. -/
def strDropLast (s : String) : String := String.mk s.data.dropLast

/-- Whitespace as trimmed by JavaScript `trim()`. -/
def isSpaceCh (c : Char) : Bool := c == ' ' || c == '\t' || c == '\n' || c == '\r'

/-- JavaScript `s.trim()`. -/
def strTrim (s : String) : String :=
  String.mk (((s.data.dropWhile isSpaceCh).reverse.dropWhile isSpaceCh).reverse)

/-- JavaScript `array.includes(x)` on an array of strings. -/
def listMem (x : String) (l : List String) : Bool := l.any (fun y => strEq x y)

/-- Join a list of path segments with slashes. -/
def joinSlash : List String → String
  | [] => ""
  | [s] => s
  | s :: rest => s ++ "/" ++ joinSlash rest

/-! ## The WHATWG URL model (Node `url.URL` / `url.format`)

A parsed http(s) URL: scheme, host (including any port), and the path as its
list of segments, so that `pathname = "/" ++ segments joined by "/"`.  This is
the subset of the WHATWG model that the crawler exercises (no userinfo, query
or fragment; hosts are kept verbatim). -/

structure URLRec where
  scheme : String
  host : String
  path : List String
deriving Repr, DecidableEq

/-- The `pathname` property of a WHATWG `URL`. -/
def pathnameOf (u : URLRec) : String := "/" ++ joinSlash u.path

/-- Node `url.format` on a WHATWG `URL` object: its serialisation. -/
def urlFormat (u : URLRec) : String := u.scheme ++ "://" ++ u.host ++ pathnameOf u

/-- Parse the part of an absolute http(s) URL after `scheme://`: a non-empty
host up to the first slash, then the path segments.  An empty host is invalid
(`new URL('http://')` throws). -/
def parseAfterScheme (scheme : String) (cs : List Char) : Option URLRec :=
  let host := cs.takeWhile (fun c => c != '/')
  let rest := cs.dropWhile (fun c => c != '/')
  if host.isEmpty then none
  else some { scheme := scheme, host := String.mk host,
              path := match rest with
                      | [] => [""]
                      | _ :: r => (splitSlash r).map String.mk }

/-- Parse an absolute http(s) URL, as `new url.URL(s)` does (other schemes are
outside the modelled subset; the crawler only ever builds http(s) URLs). -/
def parseAbs (s : String) : Option URLRec :=
  if strStarts s "http://" then parseAfterScheme "http" (s.data.drop 7)
  else if strStarts s "https://" then parseAfterScheme "https" (s.data.drop 8)
  else none

/-- The WHATWG path state applied to the segments of a relative reference:
`".."` removes the last segment accumulated so far, `"."` is skipped, and a
final dot segment leaves a trailing empty segment (a trailing slash). -/
def applySegs : List String → List String → List String
  | acc, [] => acc
  | acc, [seg] =>
    if strEq seg ".." then acc.dropLast ++ [""]
    else if strEq seg "." then acc ++ [""]
    else acc ++ [seg]
  | acc, seg :: rest =>
    if strEq seg ".." then applySegs acc.dropLast rest
    else if strEq seg "." then applySegs acc rest
    else applySegs (acc ++ [seg]) rest

/-- Resolve a reference against a parsed base, as `new url.URL(href, base)`:
scheme-full references restart from scratch, `//` keeps only the scheme, a
leading slash keeps the authority, and anything else is resolved against the
base path with its final segment removed. -/
def resolveRef (href : String) (base : URLRec) : Option URLRec :=
  if strStarts href "http://" then parseAbs href
  else if strStarts href "https://" then parseAbs href
  else if strStarts href "//" then parseAfterScheme base.scheme (href.data.drop 2)
  else if strStarts href "/" then
    some { base with path := applySegs [] ((splitSlash (href.data.drop 1)).map String.mk) }
  else if href.data.isEmpty then some base
  else
    some { base with path := applySegs base.path.dropLast ((splitSlash href.data).map String.mk) }

/-- The model of `new url.URL(href, baseStr)`: parse the base, then resolve.
`none` models the constructor throwing `ERR_INVALID_URL`. -/
def resolveURL (href : String) (baseStr : String) : Option URLRec :=
  (parseAbs baseStr).bind (fun b => resolveRef href b)

/-- A reference that resolves against every valid base: everything except a
scheme-full or protocol-relative reference with an empty host. -/
def hrefOK (href : String) : Bool :=
  if strStarts href "http://" then (parseAbs href).isSome
  else if strStarts href "https://" then (parseAbs href).isSome
  else if strStarts href "//" then !((href.data.drop 2).takeWhile (fun c => c != '/')).isEmpty
  else true

/-! ## The POSIX `path` model (`path.relative`, `path.isAbsolute`,
`path.extname`) -/

/-- Normalised segments of an absolute POSIX path (what `path.resolve` leaves
of it): empty and dot segments vanish, `".."` pops. -/
def normSegs : List String → List String → List String
  | acc, [] => acc
  | acc, seg :: rest =>
    if strEq seg "" || strEq seg "." then normSegs acc rest
    else if strEq seg ".." then normSegs acc.dropLast rest
    else normSegs (acc ++ [seg]) rest

/-- Segment list of an absolute path after normalisation. -/
def pathSegsOf (p : String) : List String :=
  normSegs [] ((splitSlash p.data).map String.mk)

/-- Length of the common initial run of two segment lists. -/
def commonLen : List String → List String → Nat
  | a :: as, b :: bs => if strEq a b then commonLen as bs + 1 else 0
  | _, _ => 0

/-- Node `path.relative(fromP, toP)` for absolute POSIX paths: normalise both,
strip the common prefix, climb with `..` and descend with what remains. -/
def pathRelative (fromP toP : String) : String :=
  let f := pathSegsOf fromP
  let t := pathSegsOf toP
  let k := commonLen f t
  joinSlash (List.replicate (f.length - k) ".." ++ t.drop k)

/-- Node `path.isAbsolute`. -/
def pathIsAbsolute (p : String) : Bool := strStarts p "/"

/-- Node `path.extname`: the dot-suffix of the final path component, empty for
dotless names and for names whose only dot is the leading one. -/
def pathExtname (p : String) : String :=
  let base := (splitSlash p.data).getLastD []
  let revTail := base.reverse.takeWhile (fun c => c != '.')
  match base.reverse.dropWhile (fun c => c != '.') with
  | [] => ""
  | _ :: pre => if pre.isEmpty then "" else String.mk ('.' :: revTail.reverse)

/-! ## The link extractor (`getHTMLLinks`)

Modelled from the spec: the source delegates HTML parsing to the third-party
cheerio library (not part of this repository), loading the markup with a
tolerant parser and mapping every `a` element, in document order, to the pair
`($el.text(), $el.attr('href'))`.  The model below is a total,
character-by-character tolerant scanner: it accumulates the visible text of
the currently open anchor, records the first `href` attribute of each opening
`a` tag, emits a pair at each closing `a` tag (auto-closing at end of input
and at a nested opening `a` tag, as forgiving parsers do), and ignores every
other tag while keeping the text inside it.  A missing `href` attribute is
`none` (cheerio's `undefined`). -/

/-- One extracted hyperlink: visible text and optional `href` attribute. -/
abbrev Link := String × Option String

/-- Scanner mode: in running text, inside a tag name, or inside the attribute
list of a tag (between attributes, in an attribute key, after `=`, or in a
double-quoted / single-quoted / bare attribute value). -/
inductive Mode where
  | text
  | tagName (closing : Bool) (nm : List Char)
  | attrGap (closing : Bool) (nm : List Char) (attrs : List (String × Option String))
  | attrKey (closing : Bool) (nm : List Char) (attrs : List (String × Option String))
      (k : List Char)
  | attrVal0 (closing : Bool) (nm : List Char) (attrs : List (String × Option String))
      (k : List Char)
  | attrValDq (closing : Bool) (nm : List Char) (attrs : List (String × Option String))
      (k : List Char) (v : List Char)
  | attrValSq (closing : Bool) (nm : List Char) (attrs : List (String × Option String))
      (k : List Char) (v : List Char)
  | attrValBare (closing : Bool) (nm : List Char) (attrs : List (String × Option String))
      (k : List Char) (v : List Char)
deriving Repr

/-- Scanner state: current mode, the open anchor if any (its `href` and the
text accumulated so far), and the links already emitted. -/
structure MSt where
  mode : Mode
  cur : Option (Option String × List Char)
  out : List Link
deriving Repr

/-- ASCII lower-casing of a character (attribute names are case-insensitive). -/
def chLower (c : Char) : Char :=
  if 'A' ≤ c && c ≤ 'Z' then Char.ofNat (c.toNat + 32) else c

/-- First `href` attribute of a tag, `none` when absent; a valueless `href`
reads as the empty string (cheerio). -/
def findHref (attrs : List (String × Option String)) : Option String :=
  match attrs.find? (fun a => strEq (String.mk (a.1.data.map chLower)) "href") with
  | some (_, some v) => some v
  | some (_, none) => some ""
  | none => none

/-- Close the currently open anchor, emitting its pair. -/
def flushCur (st : MSt) : MSt :=
  match st.cur with
  | some (h, acc) => { st with cur := none, out := st.out ++ [(String.mk acc, h)] }
  | none => st

/-- Handle a completed tag: an opening `a` (re)opens an anchor, a closing `a`
emits the open one, every other tag is ignored. -/
def handleTag (closing : Bool) (nm : List Char) (attrs : List (String × Option String))
    (st : MSt) : MSt :=
  if nm == ['a'] || nm == ['A'] then
    if closing then { flushCur st with mode := .text }
    else
      let st := flushCur st
      { st with mode := .text, cur := some (findHref attrs, []) }
  else { st with mode := .text }

/-- One scanner step. -/
def step (st : MSt) (c : Char) : MSt :=
  match st.mode with
  | .text =>
    if c == '<' then { st with mode := .tagName false [] }
    else
      match st.cur with
      | some (h, acc) => { st with cur := some (h, acc ++ [c]) }
      | none => st
  | .tagName closing nm =>
    if c == '>' then handleTag closing nm [] st
    else if c == '/' && nm.isEmpty && !closing then { st with mode := .tagName true [] }
    else if isSpaceCh c then { st with mode := .attrGap closing nm [] }
    else { st with mode := .tagName closing (nm ++ [c]) }
  | .attrGap closing nm attrs =>
    if c == '>' then handleTag closing nm attrs st
    else if isSpaceCh c || c == '/' then st
    else { st with mode := .attrKey closing nm attrs [c] }
  | .attrKey closing nm attrs k =>
    if c == '>' then handleTag closing nm (attrs ++ [(String.mk k, none)]) st
    else if c == '=' then { st with mode := .attrVal0 closing nm attrs k }
    else if isSpaceCh c then { st with mode := .attrGap closing nm (attrs ++ [(String.mk k, none)]) }
    else { st with mode := .attrKey closing nm attrs (k ++ [c]) }
  | .attrVal0 closing nm attrs k =>
    if c == '"' then { st with mode := .attrValDq closing nm attrs k [] }
    else if c == '\'' then { st with mode := .attrValSq closing nm attrs k [] }
    else if c == '>' then handleTag closing nm (attrs ++ [(String.mk k, some "")]) st
    else { st with mode := .attrValBare closing nm attrs k [c] }
  | .attrValDq closing nm attrs k v =>
    if c == '"' then { st with mode := .attrGap closing nm (attrs ++ [(String.mk k, some (String.mk v))]) }
    else { st with mode := .attrValDq closing nm attrs k (v ++ [c]) }
  | .attrValSq closing nm attrs k v =>
    if c == '\'' then { st with mode := .attrGap closing nm (attrs ++ [(String.mk k, some (String.mk v))]) }
    else { st with mode := .attrValSq closing nm attrs k (v ++ [c]) }
  | .attrValBare closing nm attrs k v =>
    if c == '>' then handleTag closing nm (attrs ++ [(String.mk k, some (String.mk v))]) st
    else if isSpaceCh c then { st with mode := .attrGap closing nm (attrs ++ [(String.mk k, some (String.mk v))]) }
    else { st with mode := .attrValBare closing nm attrs k (v ++ [c]) }

/-- Model of `getHTMLLinks(text)`: run the scanner over the whole input and
auto-close any anchor left open at end of input. -/
def getHTMLLinks (text : String) : List Link :=
  (flushCur (text.data.foldl step ⟨.text, none, []⟩)).out

/-! ## The crawl engine (`crawl`)

Data model of the source, line by line.  A fetch capability is an association
list from URLs to a per-call response function: `serverRespond server u n` is
what the `n`-th fetch of `u` returns, `none` being a network failure (a
rejected promise).  `node-fetch` resolves for every HTTP response, whatever
its status, so a response is a `(status, body)` pair and the code only ever
reads the body (`res.text()`). -/

/-- A per-URL fetch behaviour: response of the `n`-th call, `none` on network
failure. -/
abbrev Server := List (String × (Nat → Option (Nat × String)))

/-- Find the behaviour registered for a URL. -/
def serverFind : Server → String → Option (Nat → Option (Nat × String))
  | [], _ => none
  | (u, f) :: rest, v => if strEq u v then some f else serverFind rest v

/-- Response of the `n`-th fetch of `u`: URLs without a registered behaviour
always fail. -/
def serverRespond (server : Server) (u : String) (n : Nat) : Option (Nat × String) :=
  match serverFind server u with
  | some f => f n
  | none => none

/-- The `opts` bundle with the defaults of lines 16-28 of the source.  The
`filterRegex` is abstracted to its observable behaviour, the `test` predicate
on strings. -/
structure Opts where
  verbose : Bool := false
  maxAttempts : Nat := 5
  keepSeparateHosts : Bool := false
  stayInSameDirectory : Bool := true
  keepAnyFileType : Bool := false
  fileTypes : List String := ["wav", "ogg", "oga", "mp3", "mp4", "m4a", "mov", "mpga", "mod"]
  filterRegex : Option (String → Bool) := none

/-- A node pushed onto an `items` array: a directory `{name, items}` (whose
`items` is `undefined` - `none` - when the child crawl resolved to the bare
failure array `[]`), or a file `{name, downloaderArg}`. -/
inductive Entry where
  | dir (name : String) (items : Option (List Entry))
  | file (name : String) (downloaderArg : String)
deriving Repr

/-- A value the `crawl` promise can resolve with: the object `{items}`
(line 119) or the bare array `[]` produced when the attempt limit is hit
(lines 139/146). -/
inductive CrawlRes where
  | obj (items : List Entry)
  | emptyArray
deriving Repr

/-- The `items` property read by the destructuring `({items}) => ...` on
line 99: `undefined` (`none`) on the bare array. -/
def itemsOfRes : CrawlRes → Option (List Entry)
  | .obj l => some l
  | .emptyArray => none

/-- A JavaScript exception escaping `crawl`'s promise chain (re-thrown on
line 148): the `TypeError` of an invalid `new url.URL(...)` call, or the
`TypeError` of calling `.endsWith` on an `undefined` href (line 92). -/
inductive Jerr where
  | invalidURL (input : String)
  | undefinedHref (linkURL : String)
deriving Repr, DecidableEq

/-- Mutable state threaded through the sequentialised promise chain:
`allURLs` is the shared array of `internals.allURLs` (shared by reference by
every `Object.assign({}, internals)` copy); `fetchLog` is a ghost list
recording every URL passed to `fetch`, in call order; `emitted` is a ghost
list recording the resolved `linkURL` of every entry pushed onto an `items`
array, in push order (used to state global deduplication, since a directory
node does not itself store its URL). -/
structure St where
  allURLs : List String
  fetchLog : List String
  emitted : List String
deriving Repr

/-- Decision taken for one link by lines 53-116 before any recursion: skip it
(a dedup/filter/host/containment/extension rejection), emit a file entry,
recurse into a directory, or throw. -/
inductive LinkStep where
  | skip (s : St)
  | emitFile (e : Entry) (u : String) (s : St)
  | recurse (linkURL : String) (name : String) (s : St)
  | crash (e : Jerr) (s : St)

/-- The string the URL constructor stringifies a missing href to
(`String(undefined) = "undefined"`). -/
def jsStr : Option String → String
  | some h => h
  | none => "undefined"

/-- Per-link policy, lines 53-116 of the source: label clean-up, resolution
against `absURL + '/'`, dedup against the shared array (pushing before any
further processing), regex filter, host scope, directory containment, and the
directory/file classification with the extension filter. -/
def processLink (opts : Opts) (absURL : String) (absURLObj : URLRec)
    (link : Link) (s : St) : LinkStep :=
  let name0 := link.1
  let href? := link.2
  let name1 := if strEnds name0 "/" then strDropLast name0 else name0
  let name := strTrim name1
  match resolveURL (jsStr href?) (absURL ++ "/") with
  | none => .crash (.invalidURL (jsStr href?)) s
  | some urlObj =>
    let linkURL := urlFormat urlObj
    if listMem linkURL s.allURLs then .skip s
    else
      let s := { s with allURLs := s.allURLs ++ [linkURL] }
      if (match opts.filterRegex with
          | some t => !(t linkURL)
          | none => false) then .skip s
      else if !opts.keepSeparateHosts && !(strEq urlObj.host absURLObj.host) then .skip s
      else if opts.stayInSameDirectory &&
          (let relative := pathRelative (pathnameOf absURLObj) (pathnameOf urlObj)
           strStarts relative ".." || pathIsAbsolute relative) then .skip s
      else
        match href? with
        | none => .crash (.undefinedHref linkURL) s
        | some href =>
          if strEnds href "/" then .recurse linkURL name s
          else
            let extensions := opts.fileTypes.map (fun t => "." ++ t)
            if !opts.keepAnyFileType && !(listMem (pathExtname href) extensions) then .skip s
            else .emitFile (.file name linkURL) linkURL s

/-- Result type of one `crawl` promise: `none` when the modelling fuel runs
out, otherwise the resolved value or the escaping exception, with the final
shared state. -/
abbrev CrawlOut := Option ((Except Jerr CrawlRes) × St)

/-- The `for (const link of links)` loop of lines 52-117, parameterised by the
recursive crawl used for directory links (which receives the *current*
`internals.attempts` value, copied by `Object.assign({}, internals)` on
line 98, and the same shared state).  An exception from the loop body - a
link crash or a child crawl's escaping exception - aborts the loop and
propagates (the outer `.catch` on line 143 re-throws everything that is not
`'FAILED_DOWNLOAD'`). -/
def processLinks (recur : String → Nat → St → CrawlOut) (opts : Opts)
    (absURL : String) (absURLObj : URLRec) (attempts : Nat) :
    List Link → List Entry → St → CrawlOut
  | [], items, s => some (.ok (.obj items), s)
  | link :: rest, items, s =>
    match processLink opts absURL absURLObj link s with
    | .skip s' => processLinks recur opts absURL absURLObj attempts rest items s'
    | .emitFile e u s' =>
      processLinks recur opts absURL absURLObj attempts rest (items ++ [e])
        { s' with emitted := s'.emitted ++ [u] }
    | .crash e s' => some (.error e, s')
    | .recurse linkURL name s' =>
      match recur linkURL attempts s' with
      | none => none
      | some (.error e, s'') => some (.error e, s'')
      | some (.ok r, s'') =>
        processLinks recur opts absURL absURLObj attempts rest
          (items ++ [.dir name (itemsOfRes r)])
          { s'' with emitted := s''.emitted ++ [linkURL] }

/-- Body of one `crawl` call, lines 43-150, parameterised by the recursion
used for retries and child directories: parse `absURL` (line 43, throwing
synchronously on a malformed URL before any fetch), fetch it, and either run
the link loop on the body (any status) or retry / give up.  Hitting the
attempt limit throws `'FAILED_DOWNLOAD'`, which the function's own `.catch`
turns into the bare array `[]` (lines 139-146). -/
def crawlBody (recur : String → Nat → St → CrawlOut) (server : Server) (opts : Opts)
    (absURL : String) (attempts : Nat) (s : St) : CrawlOut :=
  match parseAbs absURL with
  | none => some (.error (.invalidURL absURL), s)
  | some absURLObj =>
    let n := s.fetchLog.countP (fun v => strEq v absURL)
    let s1 := { s with fetchLog := s.fetchLog ++ [absURL] }
    match serverRespond server absURL n with
    | some res =>
      processLinks recur opts absURL absURLObj attempts (getHTMLLinks res.2) [] s1
    | none =>
      if attempts < opts.maxAttempts then recur absURL (attempts + 1) s1
      else some (.ok .emptyArray, s1)

/-- The recursive `crawl` function under explicit fuel, one unit per nested
`crawl` call (retry or child directory); defined by primitive recursion on
the fuel so that concrete runs evaluate inside the kernel. -/
def crawlF (fuel : Nat) (server : Server) (opts : Opts) :
    String → Nat → St → CrawlOut :=
  Nat.rec (motive := fun _ => String → Nat → St → CrawlOut)
    (fun _ _ _ => none)
    (fun _ ih absURL attempts s => crawlBody ih server opts absURL attempts s)
    fuel

/-- The caller-supplied `internals` object of line 11: possibly-missing
`attempts` and `allURLs` fields. -/
structure Internals where
  attempts : Option Nat := none
  allURLs : Option (List String) := none
deriving Repr

/-- The public `crawl(absURL, opts, internals)` entry point, lines 30-35: a
falsy `attempts` is overwritten with `0` and a missing `allURLs` with `[]`,
both assigned directly onto the caller's object; the returned `Internals` is
that same object after the crawl (its `allURLs` array having been grown in
place by the traversal). -/
def crawlTop (fuel : Nat) (server : Server) (opts : Opts) (absURL : String)
    (i : Internals) : Option ((Except Jerr CrawlRes) × Internals) :=
  let att := i.attempts.getD 0
  let urls := i.allURLs.getD []
  match crawlF fuel server opts absURL att ⟨urls, [], []⟩ with
  | none => none
  | some (r, s) => some (r, ⟨some att, some s.allURLs⟩)

/-! ## Derived notions used by the theorems -/

/-- The state carried by a `LinkStep`. -/
def stOf : LinkStep → St
  | .skip s => s
  | .emitFile _ _ s => s
  | .recurse _ _ s => s
  | .crash _ s => s

/-- What one link-policy step may do to the state: record nothing, or record
exactly one fresh URL - the one a file emission or directory recursion is
about. -/
def LinkStepOK (s : St) : LinkStep → Prop
  | .skip s' => s' = s ∨ ∃ x, x ∉ s.allURLs ∧ s' = { s with allURLs := s.allURLs ++ [x] }
  | .crash _ s' => s' = s ∨ ∃ x, x ∉ s.allURLs ∧ s' = { s with allURLs := s.allURLs ++ [x] }
  | .emitFile _ u s' => u ∉ s.allURLs ∧ s' = { s with allURLs := s.allURLs ++ [u] }
  | .recurse l _ s' => l ∉ s.allURLs ∧ s' = { s with allURLs := s.allURLs ++ [l] }

/-- How one crawl state extends another: the shared `allURLs` array only
grows, every newly recorded URL was fresh, and the URLs of newly emitted
entries are pairwise distinct fresh recorded URLs.  This is the global
deduplication invariant of the traversal. -/
def StExt (s s' : St) : Prop :=
  ∃ du de,
    s'.allURLs = s.allURLs ++ du ∧
    s'.emitted = s.emitted ++ de ∧
    du.Nodup ∧ (∀ x ∈ du, x ∉ s.allURLs) ∧
    de.Nodup ∧ (∀ x ∈ de, x ∈ du)

/-- Pointwise refinement of recursion capabilities: whatever the first one
completes, the second completes identically (more fuel never changes a
finished answer). -/
def RecLe (r₁ r₂ : String → Nat → St → CrawlOut) : Prop :=
  ∀ u a st out, r₁ u a st = some out → r₂ u a st = some out

/-- Rewrite every response's HTTP status through `g`, leaving bodies and
failures alone. -/
def mapStatus (g : Nat → Nat) (server : Server) : Server :=
  server.map (fun p => (p.1, fun n => (p.2 n).map (fun r => (g r.1, r.2))))

/-- Well-formedness of a parsed URL: an http(s) scheme and a non-empty host
without slashes - exactly what guarantees its serialisation re-parses. -/
def IsWF (u : URLRec) : Prop :=
  (u.scheme = "http" ∨ u.scheme = "https") ∧ u.host.data ≠ [] ∧ ∀ c ∈ u.host.data, c ≠ '/'

/-- A server whose pages only carry hyperlinks with a present, resolvable
`href` attribute: the hypothesis under which link processing never throws. -/
def GoodServer (server : Server) : Prop :=
  ∀ p ∈ server, ∀ n r, p.2 n = some r →
    ∀ link ∈ getHTMLLinks r.2, ∃ h, link.2 = some h ∧ hrefOK h = true

/-- Number of server-known URLs not yet recorded in the shared array: the
termination measure of the traversal. -/
def crawlMeasure (server : Server) (s : St) : Nat :=
  ((server.map Prod.fst).toFinset.filter (fun u => u ∉ s.allURLs)).card

/-- Render one link back to anchor markup (the inverse image used to state
what the extractor returns). -/
def renderAnchor : Link → String
  | (t, some h) => "<a href=" ++ "\"" ++ h ++ "\"" ++ ">" ++ t ++ "</a>"
  | (t, none) => "<a>" ++ t ++ "</a>"

/-- Render a list of links to a document of consecutive anchors. -/
def renderAnchors : List Link → String
  | [] => ""
  | l :: rest => renderAnchor l ++ renderAnchors rest

/-! ## Concrete fixtures for the scenario claims -/

/-- The root URL of the spec's scenarios. -/
def urlA : String := "http://host/a/"

/-- Markup of the spec's containment scenario: a directory link, an in-scope
file link, and a parent-escaping file link. -/
def pageA : String :=
  "<a href=" ++ "\"b/\"" ++ ">b/</a><a href=" ++ "\"c.mp3\"" ++ ">c.mp3</a><a href=" ++
    "\"../escape.mp3\"" ++ ">../escape.mp3</a>"

/-- Server of the containment scenario: the root page plus an empty listing
for the subdirectory the crawl actually requests. -/
def srvA : Server :=
  [(urlA, fun _ => some (200, pageA)), ("http://host/a//b/", fun _ => some (200, ""))]

/-- A directory-only listing. -/
def pageDir : String := "<a href=" ++ "\"sub/\"" ++ ">sub/</a>"

/-- A flaky root: the first fetch fails, every later one succeeds with a
single directory link.  Nothing else is fetchable. -/
def srvFlaky : Server :=
  [(urlA, fun n => if n == 0 then none else some (200, pageDir))]

/-- The resolved URL of the `sub/` link (note the double slash produced by
resolving against `absURL + '/'`). -/
def subU : String := "http://host/a//sub/"

/-- A page whose only link has a malformed (unresolvable) target. -/
def pageBad : String := "<a href=" ++ "\"http://\"" ++ ">x</a>"

/-- Server serving the malformed-link page at the root. -/
def srvBad : Server := [(urlA, fun _ => some (200, pageBad))]

/-- A single-file listing. -/
def pageFile : String := "<a href=" ++ "\"c.mp3\"" ++ ">c.mp3</a>"

/-- Server answering the root with HTTP status 404 and the single-file body. -/
def srv404 : Server := [(urlA, fun _ => some (404, pageFile))]

/-- A listing with an unfetchable subdirectory followed by a file. -/
def pageSubFile : String :=
  "<a href=" ++ "\"sub/\"" ++ ">sub/</a><a href=" ++ "\"x.mp3\"" ++ ">x.mp3</a>"

/-- Server for the failed-subdirectory scenario: only the root is fetchable. -/
def srvSubFile : Server := [(urlA, fun _ => some (200, pageSubFile))]

/-! ## Basic lemmas -/

theorem strEq_iff {a b : String} : strEq a b = true ↔ a = b := by
  unfold strEq
  rw [beq_iff_eq]
  constructor
  · intro h; cases a; cases b; simp only at h; rw [h]
  · intro h; rw [h]

theorem listMem_iff {x : String} {l : List String} : listMem x l = true ↔ x ∈ l := by
  unfold listMem
  rw [List.any_eq_true]
  constructor
  · rintro ⟨y, hy, h⟩; rw [strEq_iff.mp h]; exact hy
  · intro h; exact ⟨x, h, strEq_iff.mpr rfl⟩

theorem listMem_false_iff {x : String} {l : List String} : listMem x l = false ↔ x ∉ l := by
  rw [← Bool.not_eq_true, not_iff_not]; exact listMem_iff

theorem crawlF_zero (server : Server) (opts : Opts) (u : String) (att : Nat) (s : St) :
    crawlF 0 server opts u att s = none := rfl

theorem crawlF_succ (fuel : Nat) (server : Server) (opts : Opts) (u : String) (att : Nat)
    (s : St) :
    crawlF (fuel + 1) server opts u att s =
      crawlBody (crawlF fuel server opts) server opts u att s := rfl

/-! ## The state-extension invariant -/

theorem StExt.refl (s : St) : StExt s s :=
  ⟨[], [], by simp, by simp, List.nodup_nil, by simp, List.nodup_nil, by simp⟩

theorem StExt.of_eq {s s' : St} (hU : s'.allURLs = s.allURLs) (hE : s'.emitted = s.emitted) :
    StExt s s' :=
  ⟨[], [], by simp [hU], by simp [hE], List.nodup_nil, by simp, List.nodup_nil, by simp⟩

theorem StExt.trans {s₁ s₂ s₃ : St} (h₁ : StExt s₁ s₂) (h₂ : StExt s₂ s₃) : StExt s₁ s₃ := by
  obtain ⟨du₁, de₁, hU₁, hE₁, hdu₁, hfresh₁, hde₁, hsub₁⟩ := h₁
  obtain ⟨du₂, de₂, hU₂, hE₂, hdu₂, hfresh₂, hde₂, hsub₂⟩ := h₂
  refine ⟨du₁ ++ du₂, de₁ ++ de₂, by rw [hU₂, hU₁, List.append_assoc],
    by rw [hE₂, hE₁, List.append_assoc], ?_, ?_, ?_, ?_⟩
  · rw [List.nodup_append]
    refine ⟨hdu₁, hdu₂, ?_⟩
    intro x hx₁ hx₂
    exact hfresh₂ x hx₂ (by rw [hU₁]; exact List.mem_append_right _ hx₁)
  · intro x hx
    rcases List.mem_append.mp hx with hx | hx
    · exact hfresh₁ x hx
    · intro hmem
      exact hfresh₂ x hx (by rw [hU₁]; exact List.mem_append_left _ hmem)
  · rw [List.nodup_append]
    refine ⟨hde₁, hde₂, ?_⟩
    intro x hx₁ hx₂
    exact hfresh₂ x (hsub₂ x hx₂) (by rw [hU₁]; exact List.mem_append_right _ (hsub₁ x hx₁))
  · intro x hx
    rcases List.mem_append.mp hx with hx | hx
    · exact List.mem_append_left _ (hsub₁ x hx)
    · exact List.mem_append_right _ (hsub₂ x hx)

theorem StExt.push {s : St} {x : String} (hx : x ∉ s.allURLs) :
    StExt s { s with allURLs := s.allURLs ++ [x] } :=
  ⟨[x], [], rfl, by simp, List.nodup_singleton x, by simpa using hx, List.nodup_nil, by simp⟩

/-- Emitting a file entry: its URL is pushed and emitted in one step. -/
theorem StExt.pushEmit {s : St} {x : String} (hx : x ∉ s.allURLs) :
    StExt s { s with allURLs := s.allURLs ++ [x], emitted := s.emitted ++ [x] } :=
  ⟨[x], [x], rfl, rfl, List.nodup_singleton x, by simpa using hx, List.nodup_singleton x,
    by simp⟩

/-- Emitting a directory entry after its child crawl: the directory's URL was
pushed before the child ran, so it is distinct from everything the child
emitted. -/
theorem StExt.dirEmit {s s₂ : St} {l : String} (hl : l ∉ s.allURLs)
    (h : StExt { s with allURLs := s.allURLs ++ [l] } s₂) :
    StExt s { s₂ with emitted := s₂.emitted ++ [l] } := by
  obtain ⟨du, de, hU, hE, hdu, hfresh, hde, hsub⟩ := h
  refine ⟨l :: du, de ++ [l], by simpa [List.append_assoc] using hU,
    by simp [hE, List.append_assoc], ?_, ?_, ?_, ?_⟩
  · rw [List.nodup_cons]
    exact ⟨fun hmem => hfresh l hmem (by simp), hdu⟩
  · intro x hx
    rcases List.mem_cons.mp hx with rfl | hx
    · exact hl
    · intro hmem
      exact hfresh x hx (by simp [hmem])
  · rw [List.nodup_append]
    refine ⟨hde, List.nodup_singleton l, ?_⟩
    intro x hx₁ hx₂
    rcases List.mem_singleton.mp hx₂ with rfl
    exact hfresh x (hsub x hx₁) (by simp)
  · intro x hx
    rcases List.mem_append.mp hx with hx | hx
    · exact List.mem_cons_of_mem _ (hsub x hx)
    · rcases List.mem_singleton.mp hx with rfl
      exact List.mem_cons_self _ _

/-! ## The per-link policy -/

theorem processLink_ok (opts : Opts) (a : String) (o : URLRec) (link : Link) (s : St) :
    LinkStepOK s (processLink opts a o link s) := by
  obtain ⟨nm0, hrefOpt⟩ := link
  unfold processLink
  rcases hres : resolveURL (jsStr hrefOpt) (a ++ "/") with _ | urlObj <;> simp only [hres]
  · exact Or.inl rfl
  · rcases hmem : listMem (urlFormat urlObj) s.allURLs with _ | _
    · rw [if_neg (by simp [hmem])]
      have hx : urlFormat urlObj ∉ s.allURLs := listMem_false_iff.mp hmem
      repeat' split
      all_goals first
        | exact Or.inr ⟨_, hx, rfl⟩
        | exact ⟨hx, rfl⟩
    · rw [if_pos (by simp [hmem])]
      exact Or.inl rfl

theorem processLink_skip_ext {opts : Opts} {a : String} {o : URLRec} {link : Link} {s s' : St}
    (h : processLink opts a o link s = .skip s') : StExt s s' := by
  have hok := processLink_ok opts a o link s
  rw [h] at hok
  rcases hok with rfl | ⟨x, hx, rfl⟩
  · exact StExt.refl _
  · exact StExt.push hx

theorem processLink_crash_ext {opts : Opts} {a : String} {o : URLRec} {link : Link} {e : Jerr}
    {s s' : St} (h : processLink opts a o link s = .crash e s') : StExt s s' := by
  have hok := processLink_ok opts a o link s
  rw [h] at hok
  rcases hok with rfl | ⟨x, hx, rfl⟩
  · exact StExt.refl _
  · exact StExt.push hx

theorem processLink_emitFile_eq {opts : Opts} {a : String} {o : URLRec} {link : Link}
    {e : Entry} {u : String} {s s' : St} (h : processLink opts a o link s = .emitFile e u s') :
    u ∉ s.allURLs ∧ s' = { s with allURLs := s.allURLs ++ [u] } := by
  have hok := processLink_ok opts a o link s
  rw [h] at hok
  exact hok

theorem processLink_recurse_eq {opts : Opts} {a : String} {o : URLRec} {link : Link}
    {l nm : String} {s s' : St} (h : processLink opts a o link s = .recurse l nm s') :
    l ∉ s.allURLs ∧ s' = { s with allURLs := s.allURLs ++ [l] } := by
  have hok := processLink_ok opts a o link s
  rw [h] at hok
  exact hok

/-! ## Unfolding equations for the link loop and the crawl body -/

theorem processLinks_nil {recur : String → Nat → St → CrawlOut} {opts : Opts} {a : String}
    {o : URLRec} {att : Nat} {items : List Entry} {s : St} :
    processLinks recur opts a o att [] items s = some (.ok (.obj items), s) := rfl

theorem processLinks_cons_skip {recur : String → Nat → St → CrawlOut} {opts : Opts}
    {a : String} {o : URLRec} {att : Nat} {link : Link} {rest : List Link}
    {items : List Entry} {s s₀ : St} (h : processLink opts a o link s = .skip s₀) :
    processLinks recur opts a o att (link :: rest) items s =
      processLinks recur opts a o att rest items s₀ := by
  simp only [processLinks, h]

theorem processLinks_cons_emit {recur : String → Nat → St → CrawlOut} {opts : Opts}
    {a : String} {o : URLRec} {att : Nat} {link : Link} {rest : List Link}
    {items : List Entry} {e : Entry} {u : String} {s s₀ : St}
    (h : processLink opts a o link s = .emitFile e u s₀) :
    processLinks recur opts a o att (link :: rest) items s =
      processLinks recur opts a o att rest (items ++ [e])
        { s₀ with emitted := s₀.emitted ++ [u] } := by
  simp only [processLinks, h]

theorem processLinks_cons_crash {recur : String → Nat → St → CrawlOut} {opts : Opts}
    {a : String} {o : URLRec} {att : Nat} {link : Link} {rest : List Link}
    {items : List Entry} {e : Jerr} {s s₀ : St} (h : processLink opts a o link s = .crash e s₀) :
    processLinks recur opts a o att (link :: rest) items s = some (.error e, s₀) := by
  simp only [processLinks, h]

theorem processLinks_cons_rec_none {recur : String → Nat → St → CrawlOut} {opts : Opts}
    {a : String} {o : URLRec} {att : Nat} {link : Link} {rest : List Link}
    {items : List Entry} {l nm : String} {s s₀ : St}
    (h : processLink opts a o link s = .recurse l nm s₀) (hc : recur l att s₀ = none) :
    processLinks recur opts a o att (link :: rest) items s = none := by
  simp only [processLinks, h, hc]

theorem processLinks_cons_rec_err {recur : String → Nat → St → CrawlOut} {opts : Opts}
    {a : String} {o : URLRec} {att : Nat} {link : Link} {rest : List Link}
    {items : List Entry} {l nm : String} {e : Jerr} {s s₀ s₂ : St}
    (h : processLink opts a o link s = .recurse l nm s₀)
    (hc : recur l att s₀ = some (.error e, s₂)) :
    processLinks recur opts a o att (link :: rest) items s = some (.error e, s₂) := by
  simp only [processLinks, h, hc]

theorem processLinks_cons_rec_ok {recur : String → Nat → St → CrawlOut} {opts : Opts}
    {a : String} {o : URLRec} {att : Nat} {link : Link} {rest : List Link}
    {items : List Entry} {l nm : String} {r : CrawlRes} {s s₀ s₂ : St}
    (h : processLink opts a o link s = .recurse l nm s₀)
    (hc : recur l att s₀ = some (.ok r, s₂)) :
    processLinks recur opts a o att (link :: rest) items s =
      processLinks recur opts a o att rest (items ++ [.dir nm (itemsOfRes r)])
        { s₂ with emitted := s₂.emitted ++ [l] } := by
  simp only [processLinks, h, hc]

theorem crawlBody_parse_fail {recur : String → Nat → St → CrawlOut} {server : Server}
    {opts : Opts} {u : String} {att : Nat} {s : St} (hp : parseAbs u = none) :
    crawlBody recur server opts u att s = some (.error (.invalidURL u), s) := by
  simp only [crawlBody, hp]

theorem crawlBody_fetch_ok {recur : String → Nat → St → CrawlOut} {server : Server}
    {opts : Opts} {u : String} {att : Nat} {s : St} {o : URLRec} {res : Nat × String}
    (hp : parseAbs u = some o)
    (hr : serverRespond server u (s.fetchLog.countP (fun v => strEq v u)) = some res) :
    crawlBody recur server opts u att s =
      processLinks recur opts u o att (getHTMLLinks res.2) []
        { s with fetchLog := s.fetchLog ++ [u] } := by
  simp only [crawlBody, hp, hr]

theorem crawlBody_fetch_fail_retry {recur : String → Nat → St → CrawlOut} {server : Server}
    {opts : Opts} {u : String} {att : Nat} {s : St} {o : URLRec}
    (hp : parseAbs u = some o)
    (hr : serverRespond server u (s.fetchLog.countP (fun v => strEq v u)) = none)
    (hatt : att < opts.maxAttempts) :
    crawlBody recur server opts u att s =
      recur u (att + 1) { s with fetchLog := s.fetchLog ++ [u] } := by
  simp only [crawlBody, hp, hr, if_pos hatt]

theorem crawlBody_fetch_fail_give {recur : String → Nat → St → CrawlOut} {server : Server}
    {opts : Opts} {u : String} {att : Nat} {s : St} {o : URLRec}
    (hp : parseAbs u = some o)
    (hr : serverRespond server u (s.fetchLog.countP (fun v => strEq v u)) = none)
    (hatt : ¬ att < opts.maxAttempts) :
    crawlBody recur server opts u att s =
      some (.ok .emptyArray, { s with fetchLog := s.fetchLog ++ [u] }) := by
  simp only [crawlBody, hp, hr, if_neg hatt]

/-! ## The traversal preserves the extension invariant -/

theorem processLinks_ext {recur : String → Nat → St → CrawlOut} {opts : Opts} {a : String}
    {o : URLRec} {att : Nat}
    (hrec : ∀ u' a' st' out, recur u' a' st' = some out → StExt st' out.2) :
    ∀ (links : List Link) (items : List Entry) (s : St) (out : (Except Jerr CrawlRes) × St),
      processLinks recur opts a o att links items s = some out → StExt s out.2 := by
  intro links
  induction links with
  | nil =>
    intro items s out h
    simp only [processLinks] at h
    cases h
    exact StExt.refl s
  | cons link rest ih =>
    intro items s out h
    rcases hstep : processLink opts a o link s with s₀ | ⟨e, u, s₀⟩ | ⟨l, nm, s₀⟩ | ⟨e, s₀⟩
    · rw [processLinks_cons_skip hstep] at h
      exact (processLink_skip_ext hstep).trans (ih _ _ _ h)
    · rw [processLinks_cons_emit hstep] at h
      obtain ⟨hu, rfl⟩ := processLink_emitFile_eq hstep
      exact (StExt.pushEmit hu).trans (ih _ _ _ h)
    · obtain ⟨hl, hs₀⟩ := processLink_recurse_eq hstep
      rcases hc : recur l att s₀ with _ | ⟨er | r, s₂⟩
      · rw [processLinks_cons_rec_none hstep hc] at h
        cases h
      · rw [processLinks_cons_rec_err hstep hc] at h
        cases h
        exact (StExt.push hl).trans (by rw [hs₀] at hc; exact hrec _ _ _ _ hc)
      · rw [processLinks_cons_rec_ok hstep hc] at h
        refine (StExt.dirEmit hl ?_).trans (ih _ _ _ h)
        rw [hs₀] at hc
        exact hrec _ _ _ _ hc
    · rw [processLinks_cons_crash hstep] at h
      cases h
      exact processLink_crash_ext hstep

theorem crawlF_ext :
    ∀ (fuel : Nat) (server : Server) (opts : Opts) (u : String) (att : Nat) (s : St)
      (out : (Except Jerr CrawlRes) × St),
      crawlF fuel server opts u att s = some out → StExt s out.2 := by
  intro fuel
  induction fuel with
  | zero => intro server opts u att s out h; cases h
  | succ fuel ih =>
    intro server opts u att s out h
    rw [crawlF_succ] at h
    rcases hp : parseAbs u with _ | absURLObj
    · rw [crawlBody_parse_fail hp] at h
      cases h
      exact StExt.refl s
    · rcases hr : serverRespond server u (s.fetchLog.countP (fun v => strEq v u)) with _ | res
      · by_cases hatt : att < opts.maxAttempts
        · rw [crawlBody_fetch_fail_retry hp hr hatt] at h
          refine StExt.trans ?_ (ih server opts u (att + 1) _ out h)
          exact StExt.of_eq rfl rfl
        · rw [crawlBody_fetch_fail_give hp hr hatt] at h
          cases h
          exact StExt.of_eq rfl rfl
      · rw [crawlBody_fetch_ok hp hr] at h
        refine StExt.trans ?_
          (processLinks_ext (fun u' a' st' o' => ih server opts u' a' st' o') _ _ _ _ h)
        exact StExt.of_eq rfl rfl

/-! ## Fuel monotonicity: a finished run is unchanged by extra fuel -/

theorem processLinks_le {r₁ r₂ : String → Nat → St → CrawlOut} (hle : RecLe r₁ r₂)
    {opts : Opts} {a : String} {o : URLRec} {att : Nat} :
    ∀ (links : List Link) (items : List Entry) (s : St) (out : (Except Jerr CrawlRes) × St),
      processLinks r₁ opts a o att links items s = some out →
      processLinks r₂ opts a o att links items s = some out := by
  intro links
  induction links with
  | nil => intro items s out h; exact h
  | cons link rest ih =>
    intro items s out h
    rcases hstep : processLink opts a o link s with s₀ | ⟨e, u, s₀⟩ | ⟨l, nm, s₀⟩ | ⟨e, s₀⟩
    · rw [processLinks_cons_skip hstep] at h
      rw [processLinks_cons_skip hstep]
      exact ih _ _ _ h
    · rw [processLinks_cons_emit hstep] at h
      rw [processLinks_cons_emit hstep]
      exact ih _ _ _ h
    · rcases hc : r₁ l att s₀ with _ | ⟨er | r, s₂⟩
      · rw [processLinks_cons_rec_none hstep hc] at h
        cases h
      · rw [processLinks_cons_rec_err hstep hc] at h
        rw [processLinks_cons_rec_err hstep (hle _ _ _ _ hc)]
        exact h
      · rw [processLinks_cons_rec_ok hstep hc] at h
        rw [processLinks_cons_rec_ok hstep (hle _ _ _ _ hc)]
        exact ih _ _ _ h
    · rw [processLinks_cons_crash hstep] at h
      rw [processLinks_cons_crash hstep]
      exact h

theorem crawlBody_le {r₁ r₂ : String → Nat → St → CrawlOut} (hle : RecLe r₁ r₂)
    {server : Server} {opts : Opts} {u : String} {att : Nat} {s : St}
    {out : (Except Jerr CrawlRes) × St} (h : crawlBody r₁ server opts u att s = some out) :
    crawlBody r₂ server opts u att s = some out := by
  rcases hp : parseAbs u with _ | o
  · rw [crawlBody_parse_fail hp] at h
    rw [crawlBody_parse_fail hp]
    exact h
  · rcases hr : serverRespond server u (s.fetchLog.countP (fun v => strEq v u)) with _ | res
    · by_cases hatt : att < opts.maxAttempts
      · rw [crawlBody_fetch_fail_retry hp hr hatt] at h
        rw [crawlBody_fetch_fail_retry hp hr hatt]
        exact hle _ _ _ _ h
      · rw [crawlBody_fetch_fail_give hp hr hatt] at h
        rw [crawlBody_fetch_fail_give hp hr hatt]
        exact h
    · rw [crawlBody_fetch_ok hp hr] at h
      rw [crawlBody_fetch_ok hp hr]
      exact processLinks_le hle _ _ _ _ h

theorem crawlF_le_succ (fuel : Nat) (server : Server) (opts : Opts) :
    RecLe (crawlF fuel server opts) (crawlF (fuel + 1) server opts) := by
  induction fuel with
  | zero => intro u a st out h; cases h
  | succ fuel ih =>
    intro u a st out h
    rw [crawlF_succ] at h
    rw [crawlF_succ]
    exact crawlBody_le ih h

theorem crawlF_le {fuel fuel' : Nat} (hf : fuel ≤ fuel') (server : Server) (opts : Opts) :
    RecLe (crawlF fuel server opts) (crawlF fuel' server opts) := by
  induction fuel' with
  | zero =>
    intro u a st out h
    rw [Nat.le_zero.mp hf] at h
    exact h
  | succ fuel' ih =>
    rcases Nat.lt_or_ge fuel (fuel' + 1) with hlt | hge
    · intro u a st out h
      exact crawlF_le_succ fuel' server opts u a st out (ih (Nat.lt_succ_iff.mp hlt) u a st out h)
    · intro u a st out h
      rw [Nat.le_antisymm hf hge] at h
      exact h

/-! ## Exhausting the retries of a URL whose fetch always fails -/

theorem crawlF_retry_exhaust {server : Server} {opts : Opts} {u : String}
    (ho : (parseAbs u).isSome) (hfail : ∀ n, serverRespond server u n = none) :
    ∀ (k att : Nat), opts.maxAttempts - att = k → ∀ (s : St) (fuel : Nat), k + 1 ≤ fuel →
      crawlF fuel server opts u att s =
        some (.ok .emptyArray, { s with fetchLog := s.fetchLog ++ List.replicate (k + 1) u }) := by
  obtain ⟨o, hp⟩ := Option.isSome_iff_exists.mp ho
  intro k
  induction k with
  | zero =>
    intro att hk s fuel hfuel
    obtain ⟨f, rfl⟩ := Nat.exists_eq_add_of_le hfuel
    rw [Nat.add_comm 1 f, crawlF_succ]
    rw [crawlBody_fetch_fail_give hp (hfail _) (by omega)]
    simp
  | succ k ih =>
    intro att hk s fuel hfuel
    obtain ⟨f, rfl⟩ := Nat.exists_eq_add_of_le hfuel
    have hsplit : k + 1 + 1 + f = (f + (k + 1)) + 1 := by omega
    rw [hsplit, crawlF_succ]
    have hatt : att < opts.maxAttempts := by omega
    rw [crawlBody_fetch_fail_retry hp (hfail _) hatt]
    have hk' : opts.maxAttempts - (att + 1) = k := by omega
    rw [crawlF_le (by omega : k + 1 ≤ f + (k + 1)) server opts u (att + 1) _ _
      (ih (att + 1) hk' { s with fetchLog := s.fetchLog ++ [u] } (k + 1) (Nat.le_refl _))]
    simp [List.replicate_succ]

/-! ## Claim C1: retry exhaustion -/

/-- Claim C1, as stated, is false on the code: with `maxAttempts = 5` and a
fetch that fails on every call, the crawl issues six fetch attempts (the
initial one plus five retries), not five, and resolves with the bare array
`[]` thrown-and-caught as `'FAILED_DOWNLOAD'`, not with the directory-shaped
object `{items: []}`. -/
theorem C1_counterexample :
    crawlF 6 [] {} urlA 0 ⟨[], [], []⟩ =
      some (.ok .emptyArray, ⟨[], List.replicate 6 urlA, []⟩) ∧
    (List.replicate 6 urlA).length ≠ 5 ∧
    (CrawlRes.emptyArray ≠ CrawlRes.obj []) := by
  refine ⟨?_, by decide, fun h => CrawlRes.noConfusion h⟩
  exact crawlF_retry_exhaust (show (parseAbs urlA).isSome = true from rfl)
    (show ∀ n, serverRespond [] urlA n = none from fun n => rfl) 5 0
    (show ({} : Opts).maxAttempts - 0 = 5 from rfl) ⟨[], [], []⟩ 6 (by omega)

/-- Claim C1, amended: for every configuration with `maxAttempts = m` and
every fetch capability that fails on every call for a given URL, a crawl of
that URL issues exactly `m + 1` fetch attempts for it (the initial attempt
plus `m` retries) and then resolves, without raising, with the bare empty
array `[]` - whose `items` property is `undefined` - rather than the object
`{items: []}`. -/
theorem C1_amended (m : Nat) (opts : Opts) (server : Server) (u : String) (s : St)
    (fuel : Nat) (hm : opts.maxAttempts = m) (hu : (parseAbs u).isSome)
    (hfail : ∀ n, serverRespond server u n = none) (hfuel : m + 1 ≤ fuel) :
    crawlF fuel server opts u 0 s =
      some (.ok .emptyArray, { s with fetchLog := s.fetchLog ++ List.replicate (m + 1) u }) :=
  crawlF_retry_exhaust hu hfail m 0 (by omega) s fuel hfuel

/-- Witness for C1's amended theorem at `m = 5`, the always-failing empty
server and the root `http://host/a/`. -/
theorem C1_amended_witness :
    crawlF 6 [] {} urlA 0 ⟨[], [], []⟩ =
      some (.ok .emptyArray, ⟨[], [] ++ List.replicate 6 urlA, []⟩) :=
  C1_amended 5 {} [] urlA ⟨[], [], []⟩ 6 rfl rfl (fun n => rfl) (by omega)

/-! ## Claim C2: what a directory recursion is invoked with -/

/-- Claim C2, as stated, is false on the code: `Object.assign({}, internals)`
copies the parent's *current* `attempts` value into the child crawl, not a
fresh 0.  Concretely, with `maxAttempts = 1` and a root whose fetch fails
once and then succeeds with one directory link, the child subdirectory is
fetched exactly once (it starts at `attempts = 1`, already at the limit),
whereas a child started at `attempts = 0` from the same intermediate state
would be fetched twice. -/
theorem C2_counterexample :
    crawlF 5 srvFlaky { maxAttempts := 1 } urlA 0 ⟨[], [], []⟩ =
      some (.ok (.obj [.dir "sub" none]), ⟨[subU], [urlA, urlA, subU], [subU]⟩) ∧
    ([urlA, urlA, subU].countP (fun v => strEq v subU) = 1) ∧
    crawlF 5 srvFlaky { maxAttempts := 1 } subU 0 ⟨[subU], [urlA, urlA], []⟩ =
      some (.ok .emptyArray, ⟨[subU], [urlA, urlA, subU, subU], []⟩) ∧
    ([urlA, urlA, subU, subU].countP (fun v => strEq v subU) ≠
      [urlA, urlA, subU].countP (fun v => strEq v subU)) := by
  exact ⟨rfl, by decide, rfl, by decide⟩

/-- Claim C2, amended: a link classified as a directory is recursively
crawled at the resolved absolute URL with the same shared visited array as
the parent (grown by the link's own dedup push) and with an attempt counter
equal to the parent's *current* `attempts` value - the `Object.assign` copy -
which is 0 only when the parent's own fetch needed no retries. -/
theorem C2_amended (fuel : Nat) (server : Server) (opts : Opts) (a : String) (o : URLRec)
    (att : Nat) (link : Link) (rest : List Link) (items : List Entry) (s s₀ : St)
    (l nm : String) (hstep : processLink opts a o link s = .recurse l nm s₀) :
    s₀ = { s with allURLs := s.allURLs ++ [l] } ∧
    processLinks (crawlF fuel server opts) opts a o att (link :: rest) items s =
      (match crawlF fuel server opts l att s₀ with
       | none => none
       | some (.error e, s₂) => some (.error e, s₂)
       | some (.ok r, s₂) =>
         processLinks (crawlF fuel server opts) opts a o att rest
           (items ++ [.dir nm (itemsOfRes r)]) { s₂ with emitted := s₂.emitted ++ [l] }) := by
  refine ⟨(processLink_recurse_eq hstep).2, ?_⟩
  simp only [processLinks, hstep]

/-- Witness for C2's amended theorem: the flaky-root scenario after the
root's successful second fetch, where the loop hands the child the parent's
`attempts = 1`. -/
theorem C2_amended_witness :
    (⟨[subU], [urlA, urlA], []⟩ : St) =
      { (⟨[], [urlA, urlA], []⟩ : St) with allURLs := [] ++ [subU] } ∧
    processLinks (crawlF 2 srvFlaky { maxAttempts := 1 }) { maxAttempts := 1 } urlA
        ⟨"http", "host", ["a", ""]⟩ 1 [("sub/", some "sub/")] [] ⟨[], [urlA, urlA], []⟩ =
      (match crawlF 2 srvFlaky { maxAttempts := 1 } subU 1 ⟨[subU], [urlA, urlA], []⟩ with
       | none => none
       | some (.error e, s₂) => some (.error e, s₂)
       | some (.ok r, s₂) =>
         processLinks (crawlF 2 srvFlaky { maxAttempts := 1 }) { maxAttempts := 1 } urlA
           ⟨"http", "host", ["a", ""]⟩ 1 [] ([] ++ [.dir "sub" (itemsOfRes r)])
           { s₂ with emitted := s₂.emitted ++ [subU] }) :=
  C2_amended 2 srvFlaky { maxAttempts := 1 } urlA ⟨"http", "host", ["a", ""]⟩ 1
    ("sub/", some "sub/") [] [] ⟨[], [urlA, urlA], []⟩ ⟨[subU], [urlA, urlA], []⟩ subU "sub" rfl

/-! ## Claim C3 (counterexample): a link-processing failure escapes -/

/-- Claim C3, as stated, is false on the code: after a successful root fetch,
a link whose `href` makes `new url.URL(href, absURL + '/')` throw (here
`href="http://"`, an empty-host URL) rejects the whole crawl - the outer
`.catch` re-throws everything that is not `'FAILED_DOWNLOAD'` - and this
failure escapes *after* a fetch has occurred, contradicting both "no failure
encountered while processing links propagates" and "failures escape only
before any fetch occurs". -/
theorem C3_counterexample :
    crawlF 3 srvBad {} urlA 0 ⟨[], [], []⟩ =
      some (.error (.invalidURL "http://"), ⟨[], [urlA], []⟩) ∧
    ([urlA] : List String) ≠ [] := by
  exact ⟨rfl, by simp⟩

/-! ## Claim C4: non-2xx statuses -/

/-- Claim C4, as stated, is false on the code: `node-fetch` resolves for any
HTTP response and the code never consults `res.status` or `res.ok`, so a 404
response is not retried - its body goes straight to the link extractor.  Here
the single fetch of a root answering 404 yields the page's file entry, with
exactly one fetch in the log. -/
theorem C4_counterexample :
    crawlF 2 srv404 {} urlA 0 ⟨[], [], []⟩ =
      some (.ok (.obj [.file "c.mp3" "http://host/a//c.mp3"]),
        ⟨["http://host/a//c.mp3"], [urlA], ["http://host/a//c.mp3"]⟩) ∧
    ([urlA].length = 1) := ⟨rfl, rfl⟩

/-! ## Claim C5: the containment scenario -/

/-- Claim C5, as stated, is false on the code: with root `http://host/a/`,
resolution happens against `absURL + '/'` = `http://host/a//`, so `c.mp3`
resolves to `http://host/a//c.mp3` (double slash), not
`http://host/a/c.mp3`, and `../escape.mp3` resolves to
`http://host/a/escape.mp3`, which does *not* escape `/a/`
(`path.relative('/a/', '/a/escape.mp3') = 'escape.mp3'`), so the escape link
is kept as a third entry rather than omitted. -/
theorem C5_counterexample :
    crawlF 3 srvA {} urlA 0 ⟨[], [], []⟩ =
      some (.ok (.obj [.dir "b" (some []), .file "c.mp3" "http://host/a//c.mp3",
          .file "../escape.mp3" "http://host/a/escape.mp3"]),
        ⟨["http://host/a//b/", "http://host/a//c.mp3", "http://host/a/escape.mp3"],
         [urlA, "http://host/a//b/"],
         ["http://host/a//b/", "http://host/a//c.mp3", "http://host/a/escape.mp3"]⟩) ∧
    ("http://host/a//c.mp3" ≠ "http://host/a/c.mp3") ∧
    ([Entry.dir "b" (some []), .file "c.mp3" "http://host/a//c.mp3",
      .file "../escape.mp3" "http://host/a/escape.mp3"].length ≠ 2) := by
  exact ⟨rfl, by decide, by decide⟩

/-- Claim C5, amended: with the default configuration, crawling root
`http://host/a/` whose page links to `b/` (directory), `c.mp3` (file) and
`../escape.mp3` (file) yields
`[{name:"b", items:[...]}, {name:"c.mp3", reference:"http://host/a//c.mp3"},
{name:"../escape.mp3", reference:"http://host/a/escape.mp3"}]`: references
carry the double slash coming from resolution against `absURL + '/'`, and
`../escape.mp3` is kept because its resolved path `/a/escape.mp3` stays
inside the root directory (the leading `..` only cancels the artificial
empty segment). -/
theorem C5_amended :
    crawlF 3 srvA {} urlA 0 ⟨[], [], []⟩ =
      some (.ok (.obj [.dir "b" (some []), .file "c.mp3" "http://host/a//c.mp3",
          .file "../escape.mp3" "http://host/a/escape.mp3"]),
        ⟨["http://host/a//b/", "http://host/a//c.mp3", "http://host/a/escape.mp3"],
         [urlA, "http://host/a//b/"],
         ["http://host/a//b/", "http://host/a//c.mp3", "http://host/a/escape.mp3"]⟩) := rfl

/-! ## Claim C6: global deduplication -/

/-- Claim C6: the visited array is shared (by reference) across all recursive
branches, so across a whole crawl run no resolved absolute URL is emitted as
more than one entry (file or directory) anywhere in the tree: the ghost
emission log is duplicate-free, and every emitted URL is recorded in the
shared array. -/
theorem C6_global_dedup (fuel : Nat) (server : Server) (opts : Opts) (u : String) (att : Nat)
    (r : Except Jerr CrawlRes) (s' : St)
    (h : crawlF fuel server opts u att ⟨[], [], []⟩ = some (r, s')) :
    s'.emitted.Nodup ∧ ∀ x ∈ s'.emitted, x ∈ s'.allURLs := by
  obtain ⟨du, de, hU, hE, hdu, hfresh, hde, hsub⟩ := crawlF_ext fuel server opts u att _ _ h
  simp only [List.nil_append] at hU hE
  constructor
  · rw [hE]; exact hde
  · intro x hx
    rw [hE] at hx
    rw [hU]
    exact hsub x hx

/-- Witness for C6 on the containment scenario: the three emitted URLs are
pairwise distinct and all recorded. -/
theorem C6_witness :
    (⟨["http://host/a//b/", "http://host/a//c.mp3", "http://host/a/escape.mp3"],
      [urlA, "http://host/a//b/"],
      ["http://host/a//b/", "http://host/a//c.mp3", "http://host/a/escape.mp3"]⟩ : St).emitted.Nodup ∧
    ∀ x ∈ (⟨["http://host/a//b/", "http://host/a//c.mp3", "http://host/a/escape.mp3"],
      [urlA, "http://host/a//b/"],
      ["http://host/a//b/", "http://host/a//c.mp3", "http://host/a/escape.mp3"]⟩ : St).emitted,
      x ∈ (⟨["http://host/a//b/", "http://host/a//c.mp3", "http://host/a/escape.mp3"],
      [urlA, "http://host/a//b/"],
      ["http://host/a//b/", "http://host/a//c.mp3", "http://host/a/escape.mp3"]⟩ : St).allURLs :=
  C6_global_dedup 3 srvA {} urlA 0
    (.ok (.obj [.dir "b" (some []), .file "c.mp3" "http://host/a//c.mp3",
      .file "../escape.mp3" "http://host/a/escape.mp3"])) _ rfl

/-! ## Claim C9: a permanently failed subdirectory still yields an entry -/

/-- Claim C9: when a directory link's recursive crawl permanently fails (it
resolves to the bare `'FAILED_DOWNLOAD'` array `[]`), the parent's loop still
pushes `{name, items}` for it at that link's position, where the destructured
`items` property of the bare array is `undefined` (`none`) - not an empty
list, and the entry is not dropped. -/
theorem C9_failed_subdir (recur : String → Nat → St → CrawlOut) (opts : Opts) (a : String)
    (o : URLRec) (att : Nat) (link : Link) (rest : List Link) (items : List Entry)
    (s s₀ s₂ : St) (l nm : String)
    (hstep : processLink opts a o link s = .recurse l nm s₀)
    (hc : recur l att s₀ = some (.ok .emptyArray, s₂)) :
    processLinks recur opts a o att (link :: rest) items s =
      processLinks recur opts a o att rest (items ++ [.dir nm none])
        { s₂ with emitted := s₂.emitted ++ [l] } ∧
    (∀ es, Entry.dir nm none ≠ Entry.dir nm (some es)) := by
  refine ⟨processLinks_cons_rec_ok hstep hc, ?_⟩
  intro es h
  cases h

/-- Witness for C9: the root of `srvSubFile` links to an unfetchable `sub/`
(followed by `x.mp3`); after the child's five retries fail, the parent's
items receive `{name := "sub", items := undefined}` in first position. -/
theorem C9_witness :
    processLinks (crawlF 6 srvSubFile {}) {} urlA ⟨"http", "host", ["a", ""]⟩ 0
        [("sub/", some "sub/"), ("x.mp3", some "x.mp3")] [] ⟨[], [urlA], []⟩ =
      processLinks (crawlF 6 srvSubFile {}) {} urlA ⟨"http", "host", ["a", ""]⟩ 0
        [("x.mp3", some "x.mp3")] ([] ++ [.dir "sub" none])
        { (⟨[subU], [urlA] ++ List.replicate 6 subU, []⟩ : St) with
          emitted := ([] : List String) ++ [subU] } ∧
    (∀ es, Entry.dir "sub" none ≠ Entry.dir "sub" (some es)) :=
  C9_failed_subdir (crawlF 6 srvSubFile {}) {} urlA ⟨"http", "host", ["a", ""]⟩ 0
    ("sub/", some "sub/") [("x.mp3", some "x.mp3")] [] ⟨[], [urlA], []⟩
    ⟨[subU], [urlA], []⟩ ⟨[subU], [urlA] ++ List.replicate 6 subU, []⟩ subU "sub" rfl
    (crawlF_retry_exhaust (show (parseAbs subU).isSome = true from rfl)
      (show ∀ n, serverRespond srvSubFile subU n = none from fun n => rfl) 5 0
      (show ({} : Opts).maxAttempts - 0 = 5 from rfl) ⟨[subU], [urlA], []⟩ 6 (by omega))

/-! ## Claim C4 (amended): the HTTP status is never consulted -/

theorem serverFind_mapStatus (g : Nat → Nat) (server : Server) (u : String) :
    serverFind (mapStatus g server) u =
      (serverFind server u).map (fun f => fun n => (f n).map (fun r => (g r.1, r.2))) := by
  induction server with
  | nil => rfl
  | cons p rest ih =>
    obtain ⟨v, f⟩ := p
    by_cases hv : strEq v u
    · simp [serverFind, mapStatus, hv]
    · simp only [mapStatus, List.map_cons, serverFind, hv, Bool.false_eq_true, if_false]
      exact ih

theorem serverRespond_mapStatus (g : Nat → Nat) (server : Server) (u : String) (n : Nat) :
    serverRespond (mapStatus g server) u n =
      (serverRespond server u n).map (fun r => (g r.1, r.2)) := by
  unfold serverRespond
  rw [serverFind_mapStatus]
  rcases serverFind server u with _ | f <;> rfl

theorem processLinks_congr {r₁ r₂ : String → Nat → St → CrawlOut}
    (hr : ∀ u a st, r₁ u a st = r₂ u a st) {opts : Opts} {a : String} {o : URLRec}
    {att : Nat} :
    ∀ (links : List Link) (items : List Entry) (s : St),
      processLinks r₁ opts a o att links items s = processLinks r₂ opts a o att links items s := by
  intro links
  induction links with
  | nil => intro items s; rfl
  | cons link rest ih =>
    intro items s
    rcases hstep : processLink opts a o link s with s₀ | ⟨e, u, s₀⟩ | ⟨l, nm, s₀⟩ | ⟨e, s₀⟩
    · rw [processLinks_cons_skip hstep, processLinks_cons_skip hstep]
      exact ih _ _
    · rw [processLinks_cons_emit hstep, processLinks_cons_emit hstep]
      exact ih _ _
    · rcases hc : r₁ l att s₀ with _ | ⟨er | r, s₂⟩
      · rw [processLinks_cons_rec_none hstep hc,
          processLinks_cons_rec_none hstep ((hr l att s₀).symm.trans hc)]
      · rw [processLinks_cons_rec_err hstep hc,
          processLinks_cons_rec_err hstep ((hr l att s₀).symm.trans hc)]
      · rw [processLinks_cons_rec_ok hstep hc,
          processLinks_cons_rec_ok hstep ((hr l att s₀).symm.trans hc)]
        exact ih _ _
    · rw [processLinks_cons_crash hstep, processLinks_cons_crash hstep]

/-- Claim C4, amended: the crawl never consults the HTTP status of a
response.  Rewriting every status in the fetch capability (for example
turning every 200 into a 404) leaves the whole crawl - result tree, shared
array, fetch log and emission log - unchanged; only a network-level rejection
(the `none` response) triggers the retry path. -/
theorem C4_amended (g : Nat → Nat) :
    ∀ (fuel : Nat) (server : Server) (opts : Opts) (u : String) (att : Nat) (s : St),
      crawlF fuel (mapStatus g server) opts u att s = crawlF fuel server opts u att s := by
  intro fuel
  induction fuel with
  | zero => intro server opts u att s; rfl
  | succ fuel ih =>
    intro server opts u att s
    rw [crawlF_succ, crawlF_succ]
    rcases hp : parseAbs u with _ | o
    · rw [crawlBody_parse_fail hp, crawlBody_parse_fail hp]
    · rcases hr : serverRespond server u (s.fetchLog.countP (fun v => strEq v u)) with _ | res
      · have hr' : serverRespond (mapStatus g server) u
            (s.fetchLog.countP (fun v => strEq v u)) = none := by
          rw [serverRespond_mapStatus, hr]; rfl
        by_cases hatt : att < opts.maxAttempts
        · rw [crawlBody_fetch_fail_retry hp hr' hatt, crawlBody_fetch_fail_retry hp hr hatt]
          exact ih server opts u (att + 1) _
        · rw [crawlBody_fetch_fail_give hp hr' hatt, crawlBody_fetch_fail_give hp hr hatt]
      · have hr' : serverRespond (mapStatus g server) u
            (s.fetchLog.countP (fun v => strEq v u)) = some (g res.1, res.2) := by
          rw [serverRespond_mapStatus, hr]; rfl
        rw [crawlBody_fetch_ok hp hr', crawlBody_fetch_ok hp hr]
        exact processLinks_congr (fun u' a' st' => ih server opts u' a' st') _ _ _

/-! ## Prefix and takeWhile lemmas for the URL well-formedness chain -/

theorem chStarts_append (p r : List Char) : chStarts p (p ++ r) = true := by
  induction p with
  | nil => rfl
  | cons c cs ih => simp [chStarts, ih]

theorem chStarts_iff (p s : List Char) : chStarts p s = true ↔ ∃ t, s = p ++ t := by
  induction p generalizing s with
  | nil => simp [chStarts]
  | cons c cs ih =>
    cases s with
    | nil => simp [chStarts]
    | cons d ds =>
      simp only [chStarts, Bool.and_eq_true, beq_iff_eq, ih, List.cons_append, List.cons.injEq]
      constructor
      · rintro ⟨rfl, t, rfl⟩; exact ⟨t, rfl, rfl⟩
      · rintro ⟨t, rfl, rfl⟩; exact ⟨rfl, t, rfl⟩

theorem takeWhile_ne_empty_append {q : Char → Bool} {xs : List Char} (ys : List Char)
    (h : (xs.takeWhile q).isEmpty = false) : ((xs ++ ys).takeWhile q).isEmpty = false := by
  cases xs with
  | nil => simp [List.takeWhile] at h
  | cons x xs =>
    rcases hq : q x with _ | _
    · rw [List.takeWhile_cons, hq] at h
      simp at h
    · rw [List.cons_append, List.takeWhile_cons, hq, if_pos rfl]
      rfl

theorem takeWhile_all_ne {xs ys : List Char} (h : ∀ c ∈ xs, c ≠ '/') :
    (xs ++ '/' :: ys).takeWhile (fun c => c != '/') = xs := by
  induction xs with
  | nil =>
    rw [List.nil_append, List.takeWhile_cons]
    simp
  | cons x xs ih =>
    have hx : (x != '/') = true := by
      simp only [bne_iff_ne, ne_eq]
      exact h x (List.mem_cons_self x xs)
    rw [List.cons_append, List.takeWhile_cons, hx, if_pos rfl]
    exact congrArg (x :: ·) (ih (fun c hc => h c (List.mem_cons_of_mem x hc)))

/-! ## Parsing and well-formedness of produced URLs -/

theorem parseAfterScheme_isSome_iff {scheme : String} {cs : List Char} :
    (parseAfterScheme scheme cs).isSome = true ↔
      ((cs.takeWhile (fun c => c != '/')).isEmpty = false) := by
  unfold parseAfterScheme
  rcases h : (cs.takeWhile (fun c => c != '/')).isEmpty with _ | _
  · simp [h]
  · simp [h]

theorem parseAfterScheme_WF {scheme : String} (hs : scheme = "http" ∨ scheme = "https")
    {cs : List Char} {r : URLRec} (h : parseAfterScheme scheme cs = some r) : IsWF r := by
  rcases he : (cs.takeWhile (fun c => c != '/')).isEmpty with _ | _
  · simp only [parseAfterScheme, he, Bool.false_eq_true, if_false, Option.some.injEq] at h
    subst h
    refine ⟨hs, ?_, ?_⟩
    · intro hnil
      dsimp only at hnil
      rw [hnil] at he
      simp [List.isEmpty] at he
    · intro c hc
      have := List.mem_takeWhile_imp hc
      simpa [bne_iff_ne] using this
  · simp [parseAfterScheme, he] at h

theorem parseAbs_WF {s : String} {r : URLRec} (h : parseAbs s = some r) : IsWF r := by
  unfold parseAbs at h
  split at h
  · exact parseAfterScheme_WF (Or.inl rfl) h
  · split at h
    · exact parseAfterScheme_WF (Or.inr rfl) h
    · cases h

theorem resolveRef_WF {href : String} {base r : URLRec} (hb : IsWF base)
    (h : resolveRef href base = some r) : IsWF r := by
  unfold resolveRef at h
  split at h
  · exact parseAbs_WF h
  · split at h
    · exact parseAbs_WF h
    · split at h
      · exact parseAfterScheme_WF hb.1 h
      · split at h
        · cases h; exact ⟨hb.1, hb.2.1, hb.2.2⟩
        · split at h
          · cases h; exact hb
          · cases h; exact ⟨hb.1, hb.2.1, hb.2.2⟩

theorem resolveURL_WF {href base : String} {r : URLRec} (h : resolveURL href base = some r) :
    IsWF r := by
  unfold resolveURL at h
  rcases hb : parseAbs base with _ | b
  · rw [hb] at h; cases h
  · rw [hb] at h
    exact resolveRef_WF (parseAbs_WF hb) h

theorem hrefOK_resolveRef {href : String} (hok : hrefOK href = true) (base : URLRec) :
    (resolveRef href base).isSome = true := by
  unfold hrefOK at hok
  unfold resolveRef
  split at hok
  · rw [if_pos (by assumption)]; exact hok
  · split at hok
    · rw [if_neg (by assumption), if_pos (by assumption)]; exact hok
    · split at hok
      · rw [if_neg (by assumption), if_neg (by assumption), if_pos (by assumption)]
        rw [parseAfterScheme_isSome_iff]
        simpa using hok
      · rw [if_neg (by assumption), if_neg (by assumption), if_neg (by assumption)]
        split
        · rfl
        · split
          · rfl
          · rfl

theorem strData_append (a b : String) : (a ++ b).data = a.data ++ b.data := by
  cases a; cases b; rfl

theorem strAppend_assoc (a b c : String) : (a ++ b) ++ c = a ++ (b ++ c) := by
  cases a; cases b; cases c
  show String.mk _ = String.mk _
  rw [List.append_assoc]

theorem isEmpty_false_of_ne_nil {l : List Char} (h : l ≠ []) : l.isEmpty = false := by
  cases l with
  | nil => exact absurd rfl h
  | cons c cs => rfl

theorem parseAbs_format {r : URLRec} (h : IsWF r) : (parseAbs (urlFormat r)).isSome = true := by
  obtain ⟨hs, hne, hslash⟩ := h
  have hpn : (pathnameOf r).data = '/' :: (joinSlash r.path).data := by
    unfold pathnameOf
    rw [strData_append]
    all_goals rfl
  rcases hs with hs | hs
  · have hfmt : urlFormat r = "http://" ++ (r.host ++ pathnameOf r) := by
      unfold urlFormat
      rw [hs, strAppend_assoc]
      rfl
    have hdata : (urlFormat r).data =
        "http://".data ++ (r.host.data ++ ('/' :: (joinSlash r.path).data)) := by
      rw [hfmt, strData_append, strData_append, hpn]
    have hstart : strStarts (urlFormat r) "http://" = true := by
      unfold strStarts
      rw [hdata]
      exact chStarts_append _ _
    unfold parseAbs
    rw [if_pos hstart, hdata]
    have hlen : ("http://".data).length = 7 := rfl
    rw [show (7 : Nat) = ("http://".data).length from rfl, List.drop_left]
    rw [parseAfterScheme_isSome_iff, takeWhile_all_ne hslash]
    exact isEmpty_false_of_ne_nil hne
  · have hfmt : urlFormat r = "https://" ++ (r.host ++ pathnameOf r) := by
      unfold urlFormat
      rw [hs, strAppend_assoc]
      rfl
    have hdata : (urlFormat r).data =
        "https://".data ++ (r.host.data ++ ('/' :: (joinSlash r.path).data)) := by
      rw [hfmt, strData_append, strData_append, hpn]
    have hstart : strStarts (urlFormat r) "http://" = false := by
      unfold strStarts
      rw [hdata]
      rfl
    have hstart2 : strStarts (urlFormat r) "https://" = true := by
      unfold strStarts
      rw [hdata]
      exact chStarts_append _ _
    unfold parseAbs
    rw [if_neg (by rw [hstart]; exact Bool.false_ne_true), if_pos hstart2, hdata]
    rw [show (8 : Nat) = ("https://".data).length from rfl, List.drop_left]
    rw [parseAfterScheme_isSome_iff, takeWhile_all_ne hslash]
    exact isEmpty_false_of_ne_nil hne

theorem parseAbs_append_slash {u : String} (h : (parseAbs u).isSome = true) :
    (parseAbs (u ++ "/")).isSome = true := by
  have hdata : (u ++ "/").data = u.data ++ ['/'] := by
    rw [strData_append]
  unfold parseAbs at h
  rcases hstart : strStarts u "http://" with _ | _
  · rw [hstart] at h
    simp only [Bool.false_eq_true, if_false] at h
    rcases hstart2 : strStarts u "https://" with _ | _
    · rw [hstart2] at h
      simp at h
    · rw [hstart2, if_pos rfl] at h
      obtain ⟨t, ht⟩ := (chStarts_iff _ _).mp hstart2
      have hstart' : strStarts (u ++ "/") "http://" = false := by
        unfold strStarts
        rw [hdata, ht, List.append_assoc]
        rfl
      have hstart2' : strStarts (u ++ "/") "https://" = true := by
        unfold strStarts
        rw [hdata, ht, List.append_assoc]
        exact chStarts_append _ _
      unfold parseAbs
      rw [if_neg (by rw [hstart']; exact Bool.false_ne_true), if_pos hstart2', hdata, ht,
        List.append_assoc]
      rw [show (8 : Nat) = ("https://".data).length from rfl, List.drop_left]
      rw [ht, show (8 : Nat) = ("https://".data).length from rfl, List.drop_left] at h
      rw [parseAfterScheme_isSome_iff]
      rw [parseAfterScheme_isSome_iff] at h
      exact takeWhile_ne_empty_append _ h
  · rw [hstart, if_pos rfl] at h
    obtain ⟨t, ht⟩ := (chStarts_iff _ _).mp hstart
    have hstart' : strStarts (u ++ "/") "http://" = true := by
      unfold strStarts
      rw [hdata, ht, List.append_assoc]
      exact chStarts_append _ _
    unfold parseAbs
    rw [if_pos hstart', hdata, ht, List.append_assoc]
    rw [show (7 : Nat) = ("http://".data).length from rfl, List.drop_left]
    rw [ht, show (7 : Nat) = ("http://".data).length from rfl, List.drop_left] at h
    rw [parseAfterScheme_isSome_iff]
    rw [parseAfterScheme_isSome_iff] at h
    exact takeWhile_ne_empty_append _ h

/-! ## Inversion of link-policy steps, and crash freedom -/

theorem processLink_crash_inv {opts : Opts} {a : String} {o : URLRec} {link : Link}
    {s s' : St} {e : Jerr} (h : processLink opts a o link s = .crash e s') :
    resolveURL (jsStr link.2) (a ++ "/") = none ∨ link.2 = none := by
  unfold processLink at h
  rcases hfr : opts.filterRegex with _ | t <;> simp only [hfr] at h <;>
    split at h
  next hres => exact Or.inl hres
  next urlObj hres =>
    repeat' split at h
    all_goals cases h
    all_goals simp_all [listMem_iff]
  next hres => exact Or.inl hres
  next urlObj hres =>
    repeat' split at h
    all_goals cases h
    all_goals simp_all [listMem_iff]

theorem processLink_skip_inv {opts : Opts} {a : String} {o : URLRec} {link : Link}
    {s s₀ : St} (h : processLink opts a o link s = .skip s₀) :
    ∃ urlObj, resolveURL (jsStr link.2) (a ++ "/") = some urlObj ∧
      urlFormat urlObj ∈ s₀.allURLs := by
  unfold processLink at h
  rcases hfr : opts.filterRegex with _ | t <;> simp only [hfr] at h <;>
    split at h
  next hres => simp_all
  next urlObj hres =>
    repeat' split at h
    all_goals cases h
    all_goals simp_all [listMem_iff]
  next hres => simp_all
  next urlObj hres =>
    repeat' split at h
    all_goals cases h
    all_goals simp_all [listMem_iff]

theorem processLink_recurse_inv {opts : Opts} {a : String} {o : URLRec} {link : Link}
    {s s₀ : St} {l nm : String} (h : processLink opts a o link s = .recurse l nm s₀) :
    ∃ urlObj, resolveURL (jsStr link.2) (a ++ "/") = some urlObj ∧ l = urlFormat urlObj ∧
      l ∈ s₀.allURLs := by
  unfold processLink at h
  rcases hfr : opts.filterRegex with _ | t <;> simp only [hfr] at h <;>
    split at h
  next hres => simp_all
  next urlObj hres =>
    repeat' split at h
    all_goals cases h
    all_goals simp_all [listMem_iff]
  next hres => simp_all
  next urlObj hres =>
    repeat' split at h
    all_goals cases h
    all_goals simp_all [listMem_iff]

theorem processLink_emit_inv {opts : Opts} {a : String} {o : URLRec} {link : Link}
    {s s₀ : St} {e : Entry} {u : String} (h : processLink opts a o link s = .emitFile e u s₀) :
    ∃ urlObj, resolveURL (jsStr link.2) (a ++ "/") = some urlObj ∧ u = urlFormat urlObj ∧
      u ∈ s₀.allURLs := by
  unfold processLink at h
  rcases hfr : opts.filterRegex with _ | t <;> simp only [hfr] at h <;>
    split at h
  next hres => simp_all
  next urlObj hres =>
    repeat' split at h
    all_goals cases h
    all_goals simp_all [listMem_iff]
  next hres => simp_all
  next urlObj hres =>
    repeat' split at h
    all_goals cases h
    all_goals simp_all [listMem_iff]

theorem processLink_no_crash {opts : Opts} {a : String} {o : URLRec} {link : Link} {s s' : St}
    {e : Jerr} {h : String} (hhref : link.2 = some h) (hok : hrefOK h = true)
    (hbase : (parseAbs (a ++ "/")).isSome = true) :
    processLink opts a o link s ≠ .crash e s' := by
  intro hEq
  rcases processLink_crash_inv hEq with hres | hnone
  · have hsome : (resolveURL (jsStr link.2) (a ++ "/")).isSome = true := by
      rw [hhref]
      show (resolveURL h (a ++ "/")).isSome = true
      unfold resolveURL
      obtain ⟨b, hb⟩ := Option.isSome_iff_exists.mp hbase
      rw [hb]
      exact hrefOK_resolveRef hok b
    rw [hres] at hsome
    cases hsome
  · rw [hhref] at hnone
    cases hnone

/-- The URL handed to a directory recursion is the serialisation of the
resolved link and therefore re-parses (it is a well-formed http(s) URL). -/
theorem processLink_recurse_parses {opts : Opts} {a : String} {o : URLRec} {link : Link}
    {s s₀ : St} {l nm : String} (hstep : processLink opts a o link s = .recurse l nm s₀) :
    (parseAbs l).isSome = true := by
  obtain ⟨urlObj, hres, rfl, _⟩ := processLink_recurse_inv hstep
  exact parseAbs_format (resolveURL_WF hres)

theorem serverFind_mem {server : Server} {u : String}
    {f : Nat → Option (Nat × String)} (h : serverFind server u = some f) : (u, f) ∈ server := by
  induction server with
  | nil => cases h
  | cons p rest ih =>
    obtain ⟨v, g⟩ := p
    rcases hv : strEq v u with _ | _
    · unfold serverFind at h
      rw [hv] at h
      simp only [Bool.false_eq_true, if_false] at h
      exact List.mem_cons_of_mem _ (ih h)
    · unfold serverFind at h
      rw [hv, if_pos rfl] at h
      cases h
      rw [strEq_iff.mp hv]
      exact List.mem_cons_self _ _

theorem serverRespond_decomp {server : Server} {u : String} {n : Nat} {res : Nat × String}
    (h : serverRespond server u n = some res) :
    ∃ f, serverFind server u = some f ∧ f n = some res := by
  unfold serverRespond at h
  rcases hf : serverFind server u with _ | f
  · rw [hf] at h
    cases h
  · rw [hf] at h
    exact ⟨f, rfl, h⟩

theorem processLinks_no_crash {recur : String → Nat → St → CrawlOut} {opts : Opts}
    {a : String} {o : URLRec} {att : Nat}
    (hbase : (parseAbs (a ++ "/")).isSome = true)
    (hrec : ∀ u' a' st' out, (parseAbs u').isSome = true → recur u' a' st' = some out →
      ∃ r, out.1 = .ok r) :
    ∀ (links : List Link), (∀ link ∈ links, ∃ h, link.2 = some h ∧ hrefOK h = true) →
      ∀ (items : List Entry) (s : St) (out : (Except Jerr CrawlRes) × St),
        processLinks recur opts a o att links items s = some out → ∃ r, out.1 = .ok r := by
  intro links
  induction links with
  | nil =>
    intro _ items s out h
    cases h
    exact ⟨.obj items, rfl⟩
  | cons link rest ih =>
    intro hlinks items s out h
    obtain ⟨hhd, htl⟩ := List.forall_mem_cons.mp hlinks
    obtain ⟨hs, hh, hok⟩ := hhd
    rcases hstep : processLink opts a o link s with s₀ | ⟨e, u, s₀⟩ | ⟨l, nm, s₀⟩ | ⟨e, s₀⟩
    · rw [processLinks_cons_skip hstep] at h
      exact ih htl _ _ _ h
    · rw [processLinks_cons_emit hstep] at h
      exact ih htl _ _ _ h
    · rcases hc : recur l att s₀ with _ | ⟨er | r, s₂⟩
      · rw [processLinks_cons_rec_none hstep hc] at h
        cases h
      · rw [processLinks_cons_rec_err hstep hc] at h
        cases h
        obtain ⟨r, hr⟩ := hrec l att s₀ _ (processLink_recurse_parses hstep) hc
        cases hr
      · rw [processLinks_cons_rec_ok hstep hc] at h
        exact ih htl _ _ _ h
    · exact absurd hstep (processLink_no_crash hh hok hbase)

theorem crawlF_no_crash {server : Server} {opts : Opts} (hgs : GoodServer server) :
    ∀ (fuel : Nat) (u : String) (att : Nat) (s : St) (out : (Except Jerr CrawlRes) × St),
      (parseAbs u).isSome = true → crawlF fuel server opts u att s = some out →
      ∃ r, out.1 = .ok r := by
  intro fuel
  induction fuel with
  | zero => intro u att s out _ h; cases h
  | succ fuel ih =>
    intro u att s out hu h
    rw [crawlF_succ] at h
    obtain ⟨o, hp⟩ := Option.isSome_iff_exists.mp hu
    rcases hr : serverRespond server u (s.fetchLog.countP (fun v => strEq v u)) with _ | res
    · by_cases hatt : att < opts.maxAttempts
      · rw [crawlBody_fetch_fail_retry hp hr hatt] at h
        exact ih u (att + 1) _ out hu h
      · rw [crawlBody_fetch_fail_give hp hr hatt] at h
        cases h
        exact ⟨.emptyArray, rfl⟩
    · rw [crawlBody_fetch_ok hp hr] at h
      obtain ⟨f, hf, hfn⟩ := serverRespond_decomp hr
      exact processLinks_no_crash (parseAbs_append_slash hu)
        (fun u' a' st' out' hu' h' => ih u' a' st' out' hu' h')
        (getHTMLLinks res.2) (hgs (u, f) (serverFind_mem hf) _ res hfn) _ _ _ h

/-! ## Claim C3: propagation policy -/

/-- Claim C3, amended: after a successful root fetch, network-level fetch
failures of subdirectories never propagate (they degrade to empty or
undefined subtrees), and over a server whose pages only carry present,
resolvable `href` attributes the whole crawl always resolves with a value
(never an exception); a malformed root URL, however, throws before any fetch
occurs (the returned state is exactly the input state - no fetch was logged);
and, per the counterexample, a malformed `href` inside a fetched page does
propagate, so the claim's blanket "no failure while processing links escapes"
is too strong. -/
theorem C3_amended :
    (∀ (fuel : Nat) (server : Server) (opts : Opts) (u : String) (att : Nat) (s : St)
        (out : (Except Jerr CrawlRes) × St), GoodServer server → (parseAbs u).isSome = true →
        crawlF fuel server opts u att s = some out → ∃ r, out.1 = .ok r) ∧
    (∀ (fuel : Nat) (server : Server) (opts : Opts) (u : String) (att : Nat) (s : St),
        parseAbs u = none →
        crawlF (fuel + 1) server opts u att s = some (.error (.invalidURL u), s)) := by
  constructor
  · intro fuel server opts u att s out hgs hu h
    exact crawlF_no_crash hgs fuel u att s out hu h
  · intro fuel server opts u att s hp
    rw [crawlF_succ, crawlBody_parse_fail hp]

/-- The containment-scenario server only serves pages whose links are present
and resolvable. -/
theorem srvA_good : GoodServer srvA := by
  intro p hp n r hr link hlink
  rcases List.mem_cons.mp hp with rfl | hp
  · simp only at hr
    cases hr
    rcases List.mem_cons.mp hlink with rfl | hlink
    · exact ⟨"b/", rfl, rfl⟩
    rcases List.mem_cons.mp hlink with rfl | hlink
    · exact ⟨"c.mp3", rfl, rfl⟩
    rcases List.mem_cons.mp hlink with rfl | hlink
    · exact ⟨"../escape.mp3", rfl, rfl⟩
    · cases hlink
  · rcases List.mem_cons.mp hp with rfl | hp
    · simp only at hr
      cases hr
      cases hlink
    · cases hp

/-- Witness for C3's amended theorem: the containment scenario completes with
a value, and a malformed root URL throws with an untouched state (no fetch). -/
theorem C3_amended_witness :
    (∃ r, ((Except.ok (CrawlRes.obj [.dir "b" (some []),
        .file "c.mp3" "http://host/a//c.mp3",
        .file "../escape.mp3" "http://host/a/escape.mp3"]) : Except Jerr CrawlRes),
        (⟨["http://host/a//b/", "http://host/a//c.mp3", "http://host/a/escape.mp3"],
          [urlA, "http://host/a//b/"],
          ["http://host/a//b/", "http://host/a//c.mp3", "http://host/a/escape.mp3"]⟩ : St)).1 =
        .ok r) ∧
    crawlF 1 [] {} "not-a-url" 0 ⟨[], [], []⟩ =
      some (.error (.invalidURL "not-a-url"), ⟨[], [], []⟩) :=
  ⟨C3_amended.1 3 srvA {} urlA 0 ⟨[], [], []⟩ _ srvA_good rfl rfl,
   C3_amended.2 0 [] {} "not-a-url" 0 ⟨[], [], []⟩ rfl⟩

/-! ## Claim C10: the caller-visible `internals` object -/

theorem StExt.mem_allURLs {s s' : St} (h : StExt s s') {x : String} (hx : x ∈ s.allURLs) :
    x ∈ s'.allURLs := by
  obtain ⟨du, de, hU, _, _, _, _, _⟩ := h
  rw [hU]
  exact List.mem_append_left _ hx

/-- After a successful pass over a page's links, every link of the page
resolves and its resolved URL is recorded in the shared array. -/
theorem processLinks_links_visited {recur : String → Nat → St → CrawlOut} {opts : Opts}
    {a : String} {o : URLRec} {att : Nat}
    (hrec : ∀ u' a' st' out, recur u' a' st' = some out → StExt st' out.2) :
    ∀ (links : List Link) (items : List Entry) (s : St) (its : List Entry) (s' : St),
      processLinks recur opts a o att links items s = some (.ok (.obj its), s') →
      ∀ link ∈ links, ∃ urlObj, resolveURL (jsStr link.2) (a ++ "/") = some urlObj ∧
        urlFormat urlObj ∈ s'.allURLs := by
  intro links
  induction links with
  | nil => intro items s its s' h link hlink; cases hlink
  | cons hd rest ih =>
    intro items s its s' h link hlink
    rcases hstep : processLink opts a o hd s with s₀ | ⟨e, v, s₀⟩ | ⟨l, nm, s₀⟩ | ⟨e, s₀⟩
    · rw [processLinks_cons_skip hstep] at h
      rcases List.mem_cons.mp hlink with rfl | hlink
      · obtain ⟨urlObj, hres, hmem⟩ := processLink_skip_inv hstep
        exact ⟨urlObj, hres, (processLinks_ext hrec _ _ _ _ h).mem_allURLs hmem⟩
      · exact ih _ _ _ _ h link hlink
    · rw [processLinks_cons_emit hstep] at h
      rcases List.mem_cons.mp hlink with rfl | hlink
      · obtain ⟨urlObj, hres, rfl, hmem⟩ := processLink_emit_inv hstep
        exact ⟨urlObj, hres, (processLinks_ext hrec _ _ _ _ h).mem_allURLs hmem⟩
      · exact ih _ _ _ _ h link hlink
    · rcases hc : recur l att s₀ with _ | ⟨er | r, s₂⟩
      · rw [processLinks_cons_rec_none hstep hc] at h
        cases h
      · rw [processLinks_cons_rec_err hstep hc] at h
        cases h
      · rw [processLinks_cons_rec_ok hstep hc] at h
        rcases List.mem_cons.mp hlink with rfl | hlink
        · obtain ⟨urlObj, hres, rfl, hmem⟩ := processLink_recurse_inv hstep
          refine ⟨urlObj, hres, (processLinks_ext hrec _ _ _ _ h).mem_allURLs ?_⟩
          exact (hrec _ _ _ _ hc).mem_allURLs hmem
        · exact ih _ _ _ _ h link hlink
    · rw [processLinks_cons_crash hstep] at h
      cases h

/-- When a link's resolved URL is already recorded, the policy skips it
without touching the state. -/
theorem processLink_visited_skip {opts : Opts} {a : String} {o : URLRec} {link : Link}
    {s : St} {urlObj : URLRec} (hres : resolveURL (jsStr link.2) (a ++ "/") = some urlObj)
    (hmem : urlFormat urlObj ∈ s.allURLs) : processLink opts a o link s = .skip s := by
  simp only [processLink, hres]
  rw [if_pos (listMem_iff.mpr hmem)]

/-- When every link of a page is already recorded, the whole pass is a no-op:
it returns the accumulated items and the unchanged state. -/
theorem processLinks_all_visited {recur : String → Nat → St → CrawlOut} {opts : Opts}
    {a : String} {o : URLRec} {att : Nat} :
    ∀ (links : List Link) (items : List Entry) (s : St),
      (∀ link ∈ links, ∃ urlObj, resolveURL (jsStr link.2) (a ++ "/") = some urlObj ∧
        urlFormat urlObj ∈ s.allURLs) →
      processLinks recur opts a o att links items s = some (.ok (.obj items), s) := by
  intro links
  induction links with
  | nil => intro items s _; rfl
  | cons hd rest ih =>
    intro items s hvis
    obtain ⟨urlObj, hres, hmem⟩ := hvis hd (List.mem_cons_self _ _)
    rw [processLinks_cons_skip (processLink_visited_skip hres hmem)]
    exact ih _ _ (fun link hlink => hvis link (List.mem_cons_of_mem _ hlink))

/-- A second crawl of the same URL over a visited set that already contains
everything the first successful crawl recorded replays the same fetch
pattern for the root, then skips every link: it returns the empty object and
leaves the shared array untouched. -/
theorem crawlF_rerun {server : Server} {opts : Opts} {u : String} :
    ∀ (fuel att : Nat) (lg lg' U E U' E' : List String) (its : List Entry) (s1 : St),
      crawlF fuel server opts u att ⟨U, lg, E⟩ = some (.ok (.obj its), s1) →
      lg.countP (fun v => strEq v u) = lg'.countP (fun v => strEq v u) →
      (∀ x ∈ s1.allURLs, x ∈ U') →
      ∃ lg'', crawlF fuel server opts u att ⟨U', lg', E'⟩ =
        some (.ok (.obj []), ⟨U', lg'', E'⟩) := by
  intro fuel
  induction fuel with
  | zero => intro att lg lg' U E U' E' its s1 h _ _; cases h
  | succ fuel ih =>
    intro att lg lg' U E U' E' its s1 h hcount hvis
    rw [crawlF_succ] at h
    rcases hp : parseAbs u with _ | o
    · rw [crawlBody_parse_fail hp] at h
      cases h
    · rcases hr : serverRespond server u (lg.countP (fun v => strEq v u)) with _ | res
      · by_cases hatt : att < opts.maxAttempts
        · rw [crawlBody_fetch_fail_retry hp hr hatt] at h
          have hcount' : (lg ++ [u]).countP (fun v => strEq v u) =
              (lg' ++ [u]).countP (fun v => strEq v u) := by
            rw [List.countP_append, List.countP_append, hcount]
          obtain ⟨lg'', h2⟩ := ih (att + 1) (lg ++ [u]) (lg' ++ [u]) U E U' E' its s1 h
            hcount' hvis
          refine ⟨lg'', ?_⟩
          rw [crawlF_succ,
            crawlBody_fetch_fail_retry hp (by rw [show ((⟨U', lg', E'⟩ : St).fetchLog.countP
              (fun v => strEq v u)) = lg.countP (fun v => strEq v u) from hcount.symm]; exact hr)
              hatt]
          exact h2
        · rw [crawlBody_fetch_fail_give hp hr hatt] at h
          cases h
      · rw [crawlBody_fetch_ok hp hr] at h
        have hlinks := processLinks_links_visited
          (fun u' a' st' out => crawlF_ext fuel server opts u' a' st' out) _ _ _ _ _ h
        refine ⟨lg' ++ [u], ?_⟩
        rw [crawlF_succ,
          crawlBody_fetch_ok hp (by rw [show ((⟨U', lg', E'⟩ : St).fetchLog.countP
            (fun v => strEq v u)) = lg.countP (fun v => strEq v u) from hcount.symm]; exact hr)]
        exact processLinks_all_visited _ _ _
          (fun link hlink => by
            obtain ⟨urlObj, hres, hmem⟩ := hlinks link hlink
            exact ⟨urlObj, hres, hvis _ hmem⟩)

/-- Claim C10: `crawl` mutates the caller's `internals` object.  First, a
call with missing `attempts`/`allURLs` fields behaves exactly as one whose
fields were assigned `0` and `[]`, and hands back the caller's object with
`attempts = 0` set and `allURLs` now holding the grown shared array.  Second,
passing that same object to a second top-level crawl of the same URL makes
the second crawl observe every URL the first one recorded: it dedup-skips
everything, returns `{items: []}` and leaves the object unchanged - the two
otherwise independent crawls share one visited list. -/
theorem C10_internals_shared :
    (∀ (fuel : Nat) (server : Server) (opts : Opts) (u : String),
      crawlTop fuel server opts u ⟨none, none⟩ =
        (crawlF fuel server opts u 0 ⟨[], [], []⟩).map
          (fun p => (p.1, ⟨some 0, some p.2.allURLs⟩))) ∧
    (∀ (fuel : Nat) (server : Server) (opts : Opts) (u : String) (its : List Entry)
        (i1 : Internals),
      crawlTop fuel server opts u ⟨none, none⟩ = some (.ok (.obj its), i1) →
      crawlTop fuel server opts u i1 = some (.ok (.obj []), i1)) := by
  constructor
  · intro fuel server opts u
    unfold crawlTop
    rcases h : crawlF fuel server opts u 0 ⟨[], [], []⟩ with _ | ⟨r, s⟩ <;>
      simp only [Option.getD, h, Option.map]
  · intro fuel server opts u its i1 h
    unfold crawlTop at h
    simp only [Option.getD] at h
    rcases h1 : crawlF fuel server opts u 0 ⟨[], [], []⟩ with _ | ⟨r, s1⟩
    · rw [h1] at h
      cases h
    · simp only [h1, Option.some.injEq, Prod.mk.injEq] at h
      obtain ⟨rfl, rfl⟩ := h
      obtain ⟨lg'', h2⟩ := crawlF_rerun fuel 0 [] [] [] [] s1.allURLs [] its s1 h1 rfl
        (fun x hx => hx)
      unfold crawlTop
      simp only [Option.getD]
      rw [h2]

/-- Witness for C10: rerunning the containment-scenario crawl with the
internals object mutated by the first run dedup-skips everything. -/
theorem C10_witness :
    crawlTop 3 srvA {} urlA
        ⟨some 0, some ["http://host/a//b/", "http://host/a//c.mp3",
          "http://host/a/escape.mp3"]⟩ =
      some (.ok (.obj []),
        ⟨some 0, some ["http://host/a//b/", "http://host/a//c.mp3",
          "http://host/a/escape.mp3"]⟩) :=
  C10_internals_shared.2 3 srvA {} urlA
    [.dir "b" (some []), .file "c.mp3" "http://host/a//c.mp3",
      .file "../escape.mp3" "http://host/a/escape.mp3"]
    ⟨some 0, some ["http://host/a//b/", "http://host/a//c.mp3",
      "http://host/a/escape.mp3"]⟩ rfl

/-! ## Claim C8: the link extractor -/

theorem strMk_data (s : String) : String.mk s.data = s := by
  cases s
  rfl

/-- Running the scanner over double-quoted attribute-value characters just
accumulates them. -/
theorem foldl_dq_run (cs : List Char) :
    ∀ (closing : Bool) (nm : List Char) (attrs : List (String × Option String))
      (k v : List Char) (cur : Option (Option String × List Char)) (out : List Link),
      (∀ c ∈ cs, c ≠ '"') →
      cs.foldl step ⟨.attrValDq closing nm attrs k v, cur, out⟩ =
        ⟨.attrValDq closing nm attrs k (v ++ cs), cur, out⟩ := by
  induction cs with
  | nil => intro closing nm attrs k v cur out _; simp
  | cons c cs ih =>
    intro closing nm attrs k v cur out hq
    have hc : (c == '"') = false := by
      simp only [beq_eq_false_iff_ne, ne_eq]
      exact hq c (List.mem_cons_self _ _)
    show List.foldl step (step ⟨.attrValDq closing nm attrs k v, cur, out⟩ c) cs = _
    rw [show step ⟨.attrValDq closing nm attrs k v, cur, out⟩ c =
      ⟨.attrValDq closing nm attrs k (v ++ [c]), cur, out⟩ by
        unfold step
        rw [hc]
        rfl]
    rw [ih closing nm attrs k (v ++ [c]) cur out (fun d hd => hq d (List.mem_cons_of_mem _ hd))]
    simp

/-- Running the scanner over anchor text just accumulates it. -/
theorem foldl_text_run (cs : List Char) :
    ∀ (h : Option String) (acc : List Char) (out : List Link),
      (∀ c ∈ cs, c ≠ '<') →
      cs.foldl step ⟨.text, some (h, acc), out⟩ = ⟨.text, some (h, acc ++ cs), out⟩ := by
  induction cs with
  | nil => intro h acc out _; simp
  | cons c cs ih =>
    intro h acc out hq
    have hc : (c == '<') = false := by
      simp only [beq_eq_false_iff_ne, ne_eq]
      exact hq c (List.mem_cons_self _ _)
    show List.foldl step (step ⟨.text, some (h, acc), out⟩ c) cs = _
    rw [show step ⟨.text, some (h, acc), out⟩ c = ⟨.text, some (h, acc ++ [c]), out⟩ by
      unfold step
      rw [hc]
      rfl]
    rw [ih h (acc ++ [c]) out (fun d hd => hq d (List.mem_cons_of_mem _ hd))]
    simp

/-- Scanning one rendered anchor from neutral state emits exactly its pair. -/
theorem foldl_renderAnchor (l : Link) (out : List Link)
    (ht : ∀ c ∈ l.1.data, c ≠ '<')
    (hh : ∀ hs, l.2 = some hs → ∀ c ∈ hs.data, c ≠ '"') :
    (renderAnchor l).data.foldl step ⟨.text, none, out⟩ = ⟨.text, none, out ++ [l]⟩ := by
  obtain ⟨t, h⟩ := l
  rcases h with _ | h
  · have hdata : (renderAnchor (t, (none : Option String))).data =
        "<a>".data ++ (t.data ++ "</a>".data) := by
      show ("<a>" ++ t ++ "</a>").data = _
      rw [strData_append, strData_append, List.append_assoc]
    rw [hdata, List.foldl_append, List.foldl_append]
    rw [show ("<a>".data).foldl step ⟨.text, none, out⟩ =
      ⟨.text, some (none, []), out⟩ from rfl]
    rw [foldl_text_run t.data none [] out ht]
    show List.foldl step _ ['<', '/', 'a', '>'] = _
    rw [show List.foldl step ⟨.text, some (none, [] ++ t.data), out⟩ ['<', '/', 'a', '>'] =
      ⟨.text, none, out ++ [(String.mk ([] ++ t.data), none)]⟩ from rfl]
    rw [List.nil_append, strMk_data]
  · have hdata : (renderAnchor (t, some h)).data =
        "<a href=".data ++ ("\"".data ++ (h.data ++ ("\"".data ++ (">".data ++
          (t.data ++ "</a>".data))))) := by
      show ("<a href=" ++ "\"" ++ h ++ "\"" ++ ">" ++ t ++ "</a>").data = _
      rw [strData_append, strData_append, strData_append, strData_append, strData_append,
        strData_append]
      simp [List.append_assoc]
    rw [hdata, List.foldl_append, List.foldl_append, List.foldl_append, List.foldl_append,
      List.foldl_append, List.foldl_append]
    rw [show ("\"".data).foldl step (("<a href=".data).foldl step ⟨.text, none, out⟩) =
      ⟨.attrValDq false ['a'] [] ['h', 'r', 'e', 'f'] [], none, out⟩ from rfl]
    rw [foldl_dq_run h.data false ['a'] [] ['h', 'r', 'e', 'f'] [] none out (hh h rfl)]
    rw [show ("\"".data).foldl step
        ⟨.attrValDq false ['a'] [] ['h', 'r', 'e', 'f'] ([] ++ h.data), none, out⟩ =
      ⟨.attrGap false ['a'] [(String.mk ['h', 'r', 'e', 'f'],
        some (String.mk ([] ++ h.data)))], none, out⟩ from rfl]
    rw [List.nil_append, strMk_data]
    rw [show (">".data).foldl step ⟨.attrGap false ['a']
        [(String.mk ['h', 'r', 'e', 'f'], some h)], none, out⟩ =
      ⟨.text, some (some h, []), out⟩ from rfl]
    rw [foldl_text_run t.data (some h) [] out ht]
    rw [show ("</a>".data).foldl step ⟨.text, some (some h, [] ++ t.data), out⟩ =
      ⟨.text, none, out ++ [(String.mk ([] ++ t.data), some h)]⟩ from rfl]
    rw [List.nil_append, strMk_data]

/-- Scanning a rendered anchor list from neutral state emits all pairs in
order. -/
theorem foldl_renderAnchors (L : List Link) :
    ∀ (out : List Link),
      (∀ l ∈ L, (∀ c ∈ l.1.data, c ≠ '<') ∧
        ∀ hs, l.2 = some hs → ∀ c ∈ hs.data, c ≠ '"') →
      (renderAnchors L).data.foldl step ⟨.text, none, out⟩ = ⟨.text, none, out ++ L⟩ := by
  induction L with
  | nil => intro out _; simp [renderAnchors]
  | cons l rest ih =>
    intro out hgood
    have hdata : (renderAnchors (l :: rest)).data =
        (renderAnchor l).data ++ (renderAnchors rest).data := by
      show (renderAnchor l ++ renderAnchors rest).data = _
      rw [strData_append]
    obtain ⟨hhd, htl⟩ := List.forall_mem_cons.mp hgood
    rw [hdata, List.foldl_append, foldl_renderAnchor l out hhd.1 hhd.2,
      ih (out ++ [l]) htl]
    simp

/-- Claim C8: the link extractor is a pure total function (by construction it
returns for every string input); on a document made of hyperlink elements it
returns exactly one `(visibleText, hrefAttributeValue)` pair per element, in
document order (`none` standing for an absent attribute); and on malformed or
link-free inputs it returns the empty list rather than failing. -/
theorem C8_extractor :
    (∀ (L : List Link),
      (∀ l ∈ L, (∀ c ∈ l.1.data, c ≠ '<') ∧
        ∀ hs, l.2 = some hs → ∀ c ∈ hs.data, c ≠ '"') →
      getHTMLLinks (renderAnchors L) = L) ∧
    getHTMLLinks "" = [] ∧
    getHTMLLinks "<<<>'>' junk < a" = [] ∧
    getHTMLLinks "<a href=" = [] ∧
    getHTMLLinks "<p>no links here</p>" = [] := by
  refine ⟨?_, rfl, rfl, rfl, rfl⟩
  intro L hgood
  unfold getHTMLLinks
  rw [foldl_renderAnchors L [] hgood]
  rfl

/-- Witness for C8 on a two-element document, one link with an `href` and one
without. -/
theorem C8_witness :
    getHTMLLinks (renderAnchors [("b/", some "b/"), ("no ref", none)]) =
      [("b/", some "b/"), ("no ref", none)] :=
  C8_extractor.1 [("b/", some "b/"), ("no ref", none)] (by
    intro l hl
    rcases List.mem_cons.mp hl with rfl | hl
    · exact ⟨by decide, fun hs hhs => by cases hhs; decide⟩
    rcases List.mem_cons.mp hl with rfl | hl
    · exact ⟨by decide, fun hs hhs => by cases hhs⟩
    · cases hl)

/-! ## Claim C7: termination -/

theorem crawlMeasure_le_of_mem {server : Server} {s s' : St}
    (h : ∀ x ∈ s.allURLs, x ∈ s'.allURLs) : crawlMeasure server s' ≤ crawlMeasure server s := by
  unfold crawlMeasure
  apply Finset.card_le_card
  intro x hx
  rw [Finset.mem_filter] at hx ⊢
  exact ⟨hx.1, fun hmem => hx.2 (h x hmem)⟩

theorem crawlMeasure_lt {server : Server} {s s' : St} {l : String}
    (hl : l ∈ server.map Prod.fst) (hnew : l ∉ s.allURLs)
    (hmono : ∀ x ∈ s.allURLs, x ∈ s'.allURLs) (hl' : l ∈ s'.allURLs) :
    crawlMeasure server s' < crawlMeasure server s := by
  unfold crawlMeasure
  have hsub : ((server.map Prod.fst).toFinset.filter (fun u => u ∉ s'.allURLs)) ⊆
      ((server.map Prod.fst).toFinset.filter (fun u => u ∉ s.allURLs)) := by
    intro x hx
    rw [Finset.mem_filter] at hx ⊢
    exact ⟨hx.1, fun hmem => hx.2 (hmono x hmem)⟩
  apply Finset.card_lt_card
  rw [Finset.ssubset_iff_of_subset hsub]
  refine ⟨l, ?_, ?_⟩
  · rw [Finset.mem_filter]
    exact ⟨List.mem_toFinset.mpr hl, hnew⟩
  · rw [Finset.mem_filter]
    intro hx
    exact hx.2 hl'

theorem serverFind_eq_none {server : Server} {u : String} (h : u ∉ server.map Prod.fst) :
    serverFind server u = none := by
  induction server with
  | nil => rfl
  | cons p rest ih =>
    obtain ⟨v, f⟩ := p
    rcases hv : strEq v u with _ | _
    · unfold serverFind
      rw [hv]
      simp only [Bool.false_eq_true, if_false]
      exact ih (fun hmem => h (List.mem_cons_of_mem _ hmem))
    · exfalso
      apply h
      rw [← strEq_iff.mp hv]
      exact List.mem_cons_self _ _

/-- A URL the server does not know always fails to fetch. -/
theorem serverRespond_none_of_not_mem {server : Server} {u : String}
    (h : u ∉ server.map Prod.fst) : ∀ n, serverRespond server u n = none := by
  intro n
  unfold serverRespond
  rw [serverFind_eq_none h]

/-- A crawl of a URL the server does not know terminates: either the URL does
not parse (one step) or the retry chain exhausts. -/
theorem crawlF_unknown_terminates {server : Server} {opts : Opts} {u : String}
    (h : u ∉ server.map Prod.fst) (att : Nat) (s : St) :
    ∃ fuel, (crawlF fuel server opts u att s).isSome = true := by
  rcases hp : parseAbs u with _ | o
  · refine ⟨1, ?_⟩
    rw [show (1 : Nat) = 0 + 1 from rfl, crawlF_succ, crawlBody_parse_fail hp]
    rfl
  · refine ⟨opts.maxAttempts - att + 1, ?_⟩
    rw [crawlF_retry_exhaust (by rw [hp]; rfl) (serverRespond_none_of_not_mem h)
      (opts.maxAttempts - att) att rfl s _ (Nat.le_refl _)]
    rfl

/-- Termination of the link loop, given termination of every strictly
smaller-measure crawl. -/
theorem processLinks_total {server : Server} {opts : Opts} {n : Nat}
    (IHn : ∀ m, m < n → ∀ (u : String) (att : Nat) (s : St), crawlMeasure server s ≤ m →
      ∃ fuel, (crawlF fuel server opts u att s).isSome = true) :
    ∀ (links : List Link) (a : String) (o : URLRec) (att : Nat) (items : List Entry) (s : St),
      crawlMeasure server s ≤ n →
      ∃ fuel, (processLinks (crawlF fuel server opts) opts a o att links items s).isSome = true := by
  intro links
  induction links with
  | nil =>
    intro a o att items s _
    exact ⟨0, rfl⟩
  | cons link rest ih =>
    intro a o att items s hms
    rcases hstep : processLink opts a o link s with s₀ | ⟨e, v, s₀⟩ | ⟨l, nm, s₀⟩ | ⟨e, s₀⟩
    · have hok := processLink_ok opts a o link s
      rw [hstep] at hok
      have hm : crawlMeasure server s₀ ≤ n := by
        rcases hok with rfl | ⟨x, hx, rfl⟩
        · exact hms
        · exact le_trans (crawlMeasure_le_of_mem
            (fun y hy => List.mem_append_left _ hy)) hms
      obtain ⟨f, hf⟩ := ih a o att items s₀ hm
      refine ⟨f, ?_⟩
      rw [processLinks_cons_skip hstep]
      exact hf
    · obtain ⟨hv, rfl⟩ := processLink_emitFile_eq hstep
      have hm : crawlMeasure server
          ({ { s with allURLs := s.allURLs ++ [v] } with
            emitted := { s with allURLs := s.allURLs ++ [v] }.emitted ++ [v] }) ≤ n :=
        le_trans (crawlMeasure_le_of_mem (fun y hy => List.mem_append_left _ hy)) hms
      obtain ⟨f, hf⟩ := ih a o att (items ++ [e]) _ hm
      refine ⟨f, ?_⟩
      rw [processLinks_cons_emit hstep]
      exact hf
    · obtain ⟨hl, hs₀⟩ := processLink_recurse_eq hstep
      have hchild : ∃ fuel, (crawlF fuel server opts l att s₀).isSome = true := by
        by_cases hkey : l ∈ server.map Prod.fst
        · have hlt : crawlMeasure server s₀ < crawlMeasure server s := by
            rw [hs₀]
            exact crawlMeasure_lt hkey hl (fun y hy => List.mem_append_left _ hy)
              (List.mem_append_right _ (List.mem_singleton_self _))
          exact IHn (crawlMeasure server s₀) (lt_of_lt_of_le hlt hms) l att s₀ (Nat.le_refl _)
        · exact crawlF_unknown_terminates hkey att s₀
      obtain ⟨f₁, hf₁⟩ := hchild
      obtain ⟨⟨r, s₂⟩, hc⟩ := Option.isSome_iff_exists.mp hf₁
      rcases r with er | r
      · refine ⟨f₁, ?_⟩
        rw [processLinks_cons_rec_err hstep hc]
        rfl
      · have hm₂ : crawlMeasure server ({ s₂ with emitted := s₂.emitted ++ [l] }) ≤ n := by
          refine le_trans (crawlMeasure_le_of_mem ?_) hms
          intro y hy
          have hy₀ : y ∈ s₀.allURLs := by
            rw [hs₀]
            exact List.mem_append_left _ hy
          exact (crawlF_ext f₁ server opts l att s₀ _ hc).mem_allURLs hy₀
        obtain ⟨f₂, hf₂⟩ := ih a o att (items ++ [.dir nm (itemsOfRes r)]) _ hm₂
        obtain ⟨out₂, hout₂⟩ := Option.isSome_iff_exists.mp hf₂
        refine ⟨max f₁ f₂, ?_⟩
        rw [processLinks_cons_rec_ok hstep
          (crawlF_le (Nat.le_max_left f₁ f₂) server opts l att s₀ _ hc)]
        rw [processLinks_le (crawlF_le (Nat.le_max_right f₁ f₂) server opts) _ _ _ _ hout₂]
        rfl
    · refine ⟨0, ?_⟩
      rw [processLinks_cons_crash hstep]
      rfl

/-- Termination of a crawl call, by strong induction on the number of
server-known URLs not yet recorded, with an inner induction on the remaining
retry budget. -/
theorem crawlF_total {server : Server} {opts : Opts} :
    ∀ (n : Nat) (u : String) (att : Nat) (s : St), crawlMeasure server s ≤ n →
      ∃ fuel, (crawlF fuel server opts u att s).isSome = true := by
  intro n
  induction n using Nat.strong_induction_on with
  | _ n IHn =>
    have main : ∀ (k : Nat) (u : String) (att : Nat) (s : St),
        opts.maxAttempts - att ≤ k → crawlMeasure server s ≤ n →
        ∃ fuel, (crawlF fuel server opts u att s).isSome = true := by
      intro k
      induction k with
      | zero =>
        intro u att s hk hms
        rcases hp : parseAbs u with _ | o
        · refine ⟨1, ?_⟩
          rw [show (1 : Nat) = 0 + 1 from rfl, crawlF_succ, crawlBody_parse_fail hp]
          rfl
        · rcases hr : serverRespond server u (s.fetchLog.countP (fun v => strEq v u))
            with _ | res
          · refine ⟨1, ?_⟩
            rw [show (1 : Nat) = 0 + 1 from rfl, crawlF_succ,
              crawlBody_fetch_fail_give hp hr (by omega)]
            rfl
          · obtain ⟨f, hf⟩ := processLinks_total IHn (getHTMLLinks res.2) u o att []
              { s with fetchLog := s.fetchLog ++ [u] } hms
            refine ⟨f + 1, ?_⟩
            rw [crawlF_succ, crawlBody_fetch_ok hp hr]
            exact hf
      | succ k ihk =>
        intro u att s hk hms
        rcases hp : parseAbs u with _ | o
        · refine ⟨1, ?_⟩
          rw [show (1 : Nat) = 0 + 1 from rfl, crawlF_succ, crawlBody_parse_fail hp]
          rfl
        · rcases hr : serverRespond server u (s.fetchLog.countP (fun v => strEq v u))
            with _ | res
          · by_cases hatt : att < opts.maxAttempts
            · obtain ⟨f, hf⟩ := ihk u (att + 1) { s with fetchLog := s.fetchLog ++ [u] }
                (by omega) hms
              refine ⟨f + 1, ?_⟩
              rw [crawlF_succ, crawlBody_fetch_fail_retry hp hr hatt]
              exact hf
            · refine ⟨1, ?_⟩
              rw [show (1 : Nat) = 0 + 1 from rfl, crawlF_succ,
                crawlBody_fetch_fail_give hp hr hatt]
              rfl
          · obtain ⟨f, hf⟩ := processLinks_total IHn (getHTMLLinks res.2) u o att []
              { s with fetchLog := s.fetchLog ++ [u] } hms
            refine ⟨f + 1, ?_⟩
            rw [crawlF_succ, crawlBody_fetch_ok hp hr]
            exact hf
    intro u att s hms
    exact main (opts.maxAttempts - att) u att s (Nat.le_refl _) hms

/-- Claim C7, as stated, is false on the code: over a server with finitely
many distinct resources the crawl does terminate, but it does not always
complete *with a tree*.  Crawling `srvBad` (a one-resource server) completes
with an escaping `TypeError` from `new url.URL("http://", ...)` - the outer
`.catch` re-throws everything that is not `'FAILED_DOWNLOAD'` - and crawling
a root that the empty (hence finite) server never serves completes with the
bare failure array `[]` after exhausting all six fetch attempts; neither
completed outcome equals the tree object `{items: [...]}` for any items
list. -/
theorem C7_counterexample :
    (crawlF 3 srvBad {} urlA 0 ⟨[], [], []⟩ =
       some (.error (.invalidURL "http://"), ⟨[], [urlA], []⟩) ∧
     ∀ items : List Entry, ∀ s₁ : St,
       crawlF 3 srvBad {} urlA 0 ⟨[], [], []⟩ ≠ some (.ok (.obj items), s₁)) ∧
    (crawlF 7 [] {} urlA 0 ⟨[], [], []⟩ =
       some (.ok .emptyArray, ⟨[], [urlA, urlA, urlA, urlA, urlA, urlA], []⟩) ∧
     ∀ items : List Entry, ∀ s₁ : St,
       crawlF 7 [] {} urlA 0 ⟨[], [], []⟩ ≠ some (.ok (.obj items), s₁)) := by
  refine ⟨⟨rfl, ?_⟩, ⟨rfl, ?_⟩⟩
  · intro items s₁ h
    rw [show crawlF 3 srvBad {} urlA 0 ⟨[], [], []⟩ =
        some (.error (.invalidURL "http://"), (⟨[], [urlA], []⟩ : St)) from rfl] at h
    simp at h
  · intro items s₁ h
    rw [show crawlF 7 [] {} urlA 0 ⟨[], [], []⟩ =
        some (.ok .emptyArray, (⟨[], [urlA, urlA, urlA, urlA, urlA, urlA], []⟩ : St)) from rfl] at h
    simp at h

/-- Claim C7, amended: for every root URL, every configuration and every
fetch capability (a finite association of URLs to per-call responses - a
server with finitely many distinct resources), the crawl terminates: some
finite fuel suffices for it to complete with an outcome - the tree object
`{items: [...]}`, the bare failure array `[]`, or an escaping exception -
rather than recursing forever.  Recursion only enters URLs freshly added to
the shared array, and URLs unknown to the server exhaust their retries, so
the number of server-known unvisited URLs strictly decreases across
directory descents. -/
theorem C7_amended (server : Server) (opts : Opts) (u : String) (att : Nat) (s : St) :
    ∃ fuel, (crawlF fuel server opts u att s).isSome = true :=
  crawlF_total (crawlMeasure server s) u att s (Nat.le_refl _)

end CrawlHttp
